import Mathlib

/-!
# Verification of the market-signal reconciliation and status-decision subsystem

Shallow embedding of the database-facing core of `hbs-streamlit-v2`
(`src/db/operaciones_db.py`, `src/db/models_orm.py`, `src/db/_legacydb_utils.py`).

Modelling conventions:
* SQL tables are lists of row structures together with the autoincrement
  counter (`nextId`); a committed `INSERT` appends a row carrying the next id.
* `DECIMAL` columns are modelled as `Rat`, epoch columns as `Int`
  (Python integers are unbounded), name columns as `String`.
* A SQLAlchemy session is `Except String σ`: `.error e` is a session whose
  queries raise exception `e`, `.ok s` a working session over store `s`.
* `random.random()` draws are modelled by an ambient stream `r : Nat → Rat`
  of values in `[0, 1)`; each generated sample consumes draws at distinct
  indices.
* Wall-clock display strings (`strftime` output, the `timestamp` text columns
  and the `fecha`/`hora` columns derived from them) are not modelled: no claim
  refers to them, and the epoch column carries the same instant.
-/

namespace HBS

/-- `str.upper()` on the ASCII identifiers used by the repository
(`String.map Char.toUpper`, written over the character list so that proofs
can evaluate it). -/
def upperStr (s : String) : String :=
  ⟨s.data.map Char.toUpper⟩

/-- `normalize_barra` (operaciones_db.py:1026): uppercase, then map the known
case/punctuation variants of the two physical buses to their canonical
spelling; unknown names pass through unchanged. -/
def normalize_barra (barra : String) : String :=
  let b := upperStr barra
  if b = "CHARRUA_22O" then "CHARRUA__220"
  else if b = "QUILLOTA_22O" then "QUILLOTA__220"
  else if b = "CHARRUA_220" then "CHARRUA__220"
  else if b = "QUILLOTA_220" then "QUILLOTA__220"
  else if b = "CHARRUA" then "CHARRUA__220"
  else if b = "QUILLOTA" then "QUILLOTA__220"
  else b

/-! ## Operational-cost ledger (`central_costo_operacional`, models_orm.py:254) -/

/-- A row of the `central_costo_operacional` table.  `central_id` is nullable
(the FK resolution can fail); the `timestamp` display string is not modelled. -/
structure CostoOpRow where
  id : Nat
  central_id : Option Nat
  central_nombre : String
  unix_time : Int
  costo_operacional : Rat
  editor : String
  deriving Repr, DecidableEq

/-- The `central_costo_operacional` table with its autoincrement counter. -/
structure CostoOpStore where
  rows : List CostoOpRow
  nextId : Nat
  deriving Repr, DecidableEq

/-- One step of an `ORDER BY ... DESC LIMIT 1` scan: replace the current best
row when the candidate sorts strictly earlier under the ordering (`better m
row` reads "`row` beats `m`"); ties keep the first row seen. -/
def argmaxStep {α : Type} (better : α → α → Prop) [DecidableRel better]
    (acc : Option α) (row : α) : Option α :=
  match acc with
  | none => some row
  | some m => if better m row then some row else acc

/-- `ORDER BY ... DESC LIMIT 1` over a list of rows. -/
def argmaxBy {α : Type} (better : α → α → Prop) [DecidableRel better]
    (rows : List α) : Option α :=
  rows.foldl (argmaxStep better) none

/-- The strict comparison of `ORDER BY unix_time DESC, id DESC`. -/
def costoLexLt (m row : CostoOpRow) : Prop :=
  row.unix_time > m.unix_time ∨ (row.unix_time = m.unix_time ∧ row.id > m.id)

instance : DecidableRel costoLexLt := fun _ _ => by
  unfold costoLexLt
  infer_instance

/-- `ORDER BY unix_time DESC, id DESC LIMIT 1`: keep the row maximal in the
lexicographic (unix_time, id) order (ties on both keys keep the first row). -/
def maxByTimeId (rows : List CostoOpRow) : Option CostoOpRow :=
  argmaxBy costoLexLt rows

/-- `retrieve_costo_operacional` (operaciones_db.py:2139): latest snapshot for
a plant, ordered by `unix_time` desc then `id` desc; `None` when the plant has
no snapshot or the session raises. -/
def retrieve_costo_operacional (sess : Except String CostoOpStore)
    (central_nombre : String) : Option CostoOpRow :=
  match sess with
  | .error _ => none
  | .ok s => maxByTimeId (s.rows.filter (fun row => row.central_nombre = central_nombre))

/-- The `uq_central_id_unix_time` unique constraint (models_orm.py:272): a new
row conflicts when a stored row has the same non-null `central_id` and the
same `unix_time` (SQL `UNIQUE` ignores NULLs). -/
def costoOpConflict (s : CostoOpStore) (central_id : Option Nat) (unix_time : Int) : Bool :=
  match central_id with
  | none => false
  | some cid => s.rows.any (fun row => row.central_id = some cid ∧ row.unix_time = unix_time)

/-- `inject_costo_operacional` (operaciones_db.py:2062): append one snapshot
row and commit; a unique-constraint violation at commit rolls back and yields
`None` with the store unchanged.  `unix_time` is the epoch the function ends
up writing (supplied by the caller or derived from the timestamp/clock — the
derivation itself is display-string plumbing and is not modelled); the
`central_id` FK lookup result is likewise passed in directly. -/
def inject_costo_operacional (s : CostoOpStore) (central_nombre : String)
    (costo_operacional : Rat) (unix_time : Int) (central_id : Option Nat)
    (editor : String) : Option CostoOpRow × CostoOpStore :=
  if costoOpConflict s central_id unix_time then
    (none, s)
  else
    let row : CostoOpRow :=
      { id := s.nextId, central_id := central_id, central_nombre := central_nombre,
        unix_time := unix_time, costo_operacional := costo_operacional, editor := editor }
    (some row, { rows := s.rows ++ [row], nextId := s.nextId + 1 })

/-! ## Status decision records (`status_central`, models_orm.py:210) -/

/-- A row of the `status_central` table. -/
structure StatusRow where
  id : Nat
  central : String
  barra : String
  unix_time : Int
  cmg_ponderado : Rat
  status_operacional : String
  costo_operacional_id : Nat
  deriving Repr, DecidableEq

/-- The `status_central` table with its autoincrement counter. -/
structure StatusStore where
  rows : List StatusRow
  nextId : Nat
  deriving Repr, DecidableEq

/-- The `uq_central_unix_time` unique constraint (models_orm.py:242). -/
def statusConflict (s : StatusStore) (central : String) (unix_time : Int) : Bool :=
  s.rows.any (fun row => row.central = central ∧ row.unix_time = unix_time)

/-- `insert_status_central` (operaciones_db.py:2162): look up the latest cost
snapshot for the plant; without one, log and return `None` writing nothing.
Otherwise insert a status row linked to that snapshot; a unique-constraint
violation at commit rolls back and yields `None` with the store unchanged. -/
def insert_status_central (costoSess : Except String CostoOpStore) (s : StatusStore)
    (central_nombre barra : String) (unix_time : Int) (cmg_ponderado : Rat)
    (status_operacional : String) : Option StatusRow × StatusStore :=
  match retrieve_costo_operacional costoSess central_nombre with
  | none => (none, s)
  | some costo_op =>
      if statusConflict s central_nombre unix_time then
        (none, s)
      else
        let row : StatusRow :=
          { id := s.nextId, central := central_nombre, barra := barra,
            unix_time := unix_time, cmg_ponderado := cmg_ponderado,
            status_operacional := status_operacional,
            costo_operacional_id := costo_op.id }
        (some row, { rows := s.rows ++ [row], nextId := s.nextId + 1 })

/-! ## Decoupling tracker (`desacople_history`)

The `DesacopleHistory` ORM class is referenced by `operaciones_db.py` but its
declaration is not under `src/` (only these call sites are); its columns are
taken from the constructor call at operaciones_db.py:1009 — an id primary key
plus `barra_transmision`, `estado`, `detected_at` and three optional text
fields.  `detected_at` (a datetime) is modelled as an epoch `Int`; every row
written by `upsert_desacople_history` carries a non-null `detected_at`, so the
Python truthiness guard `ultimo.detected_at and ...` is always satisfied. -/

/-- A row of the `desacople_history` table. -/
structure DesacopleRow where
  id : Nat
  barra_transmision : String
  estado : String
  detected_at : Int
  tramo : Option String
  comentario : Option String
  fuente : Option String
  deriving Repr, DecidableEq

/-- The `desacople_history` table with its autoincrement counter. -/
structure DesacopleStore where
  rows : List DesacopleRow
  nextId : Nat
  deriving Repr, DecidableEq

/-- `ORDER BY detected_at DESC LIMIT 1`: keep the row with maximal
`detected_at` (ties keep the first row). -/
def maxByDetectedAt (rows : List DesacopleRow) : Option DesacopleRow :=
  argmaxBy (fun m row => row.detected_at > m.detected_at) rows

/-- `upsert_desacople_history` (operaciones_db.py:984): fetch the most recent
stored event for the *raw* bus name (no normalization); reject the write when
it is at least as recent as the new event, update that row in place when it is
older, and insert a fresh row when none exists.  Returns the stored-or-new
event together with the table after commit. -/
def upsert_desacople_history (s : DesacopleStore) (barra_transmision estado : String)
    (detected_at : Int) (tramo comentario fuente : Option String) :
    DesacopleRow × DesacopleStore :=
  match maxByDetectedAt (s.rows.filter (fun row => row.barra_transmision = barra_transmision)) with
  | some ultimo =>
      if detected_at ≤ ultimo.detected_at then
        (ultimo, s)
      else
        let updated : DesacopleRow :=
          { ultimo with
            estado := estado,
            detected_at := detected_at,
            tramo := tramo,
            comentario := comentario,
            fuente := fuente }
        (updated,
          { s with rows := s.rows.map (fun row => if row.id = ultimo.id then updated else row) })
  | none =>
      let nuevo : DesacopleRow :=
        { id := s.nextId, barra_transmision := barra_transmision, estado := estado,
          detected_at := detected_at, tramo := tramo, comentario := comentario,
          fuente := fuente }
      (nuevo, { rows := s.rows ++ [nuevo], nextId := s.nextId + 1 })

/-- The dictionary returned by `get_latest_desacople_event`. -/
structure EventDict where
  estado : String
  detected_at : Int
  tramo : Option String
  comentario : Option String
  fuente : Option String
  deriving Repr, DecidableEq

/-- The variant set built at operaciones_db.py:1050: the uppercased raw name,
the uppercased canonical name, and the known variant family of the canonical
name (empty for unknown buses).  Modelled as a list queried by membership. -/
def desacopleVariants (barra : String) : List String :=
  let canon := normalize_barra barra
  let family :=
    if canon = "CHARRUA__220" then
      ["CHARRUA__220", "CHARRUA_22O", "CHARRUA_220", "CHARRUA"]
    else if canon = "QUILLOTA__220" then
      ["QUILLOTA__220", "QUILLOTA_22O", "QUILLOTA_220", "QUILLOTA"]
    else []
  upperStr barra :: upperStr canon :: family

/-- `get_latest_desacople_event` (operaciones_db.py:1040): normalize the bus
name, collect its spelling variants, and return the most recent stored event
whose raw bus name is among them; `None` when nothing matches or the session
raises. -/
def get_latest_desacople_event (sess : Except String DesacopleStore)
    (barra_transmision : String) : Option EventDict :=
  match sess with
  | .error _ => none
  | .ok s =>
      let variants := desacopleVariants barra_transmision
      match maxByDetectedAt
          (s.rows.filter (fun row => variants.contains row.barra_transmision)) with
      | none => none
      | some ultimo =>
          some { estado := ultimo.estado, detected_at := ultimo.detected_at,
                 tramo := ultimo.tramo, comentario := ultimo.comentario,
                 fuente := ultimo.fuente }

/-! ## Shared numeric helpers -/

/-- Python's `round(x, 2)`: round to two fractional digits.  (Python rounds
exact halves to even; this model rounds them up.  The two agree everywhere
else, and every theorem below only uses `|round2 x - x| ≤ 1/200`, which holds
for either tie-breaking rule.) -/
def round2 (q : Rat) : Rat :=
  ((round (q * 100) : Int) : Rat) / 100

/-- `str.lower()` on the ASCII identifiers used by the repository
(`String.map Char.toLower`, written over the character list so that proofs
can evaluate it). -/
def lowerStr (s : String) : String :=
  ⟨s.data.map Char.toLower⟩

/-- Two-digit hour key `f"{hour:02d}:00"`. -/
def hourKey (h : Nat) : String :=
  (if h < 10 then "0" ++ toString h else toString h) ++ ":00"

/-! ## Programmed-forecast cache (`cmg_programados`, models_orm.py:144) -/

/-- A row of the `cmg_programados` table: the 24 hourly `DECIMAL` columns
`"00:00"`..`"23:00"` are modelled as a list indexed by hour (entries are
nullable). -/
structure ProgramadosRow where
  id : Nat
  central : String
  central_referencia : String
  fecha_programado : String
  vals : List (Option Rat)
  deriving Repr, DecidableEq

/-- The `cmg_programados` table with its autoincrement counter. -/
structure ProgramadosStore where
  rows : List ProgramadosRow
  nextId : Nat
  deriving Repr, DecidableEq

/-- `inject_cmg_programados` (operaciones_db.py:1305): build a fresh row,
setting each hourly column present in the input mapping (keys that match no
hour column are ignored, matching `setattr` on a non-column attribute), then
`INSERT` it.  No existing row is read, replaced or deleted. -/
def inject_cmg_programados (s : ProgramadosStore) (central central_referencia : String)
    (fecha_programado : String) (valores_horarios : List (String × Rat)) :
    ProgramadosRow × ProgramadosStore :=
  let row : ProgramadosRow :=
    { id := s.nextId, central := central, central_referencia := central_referencia,
      fecha_programado := fecha_programado,
      vals := (List.range 24).map (fun h =>
        (valores_horarios.find? (fun kv => kv.1 = hourKey h)).map (·.2)) }
  (row, { rows := s.rows ++ [row], nextId := s.nextId + 1 })

/-- `generate_fallback_cmg_programados` (operaciones_db.py:669): a synthetic
24-value curve from a per-plant base, `0.5/hour` drift and a bounded random
perturbation. -/
def generate_fallback_cmg_programados (name_central : String) (r : Nat → Rat) :
    List (String × Rat) :=
  let base : Rat :=
    if lowerStr name_central = "quillota" then 48
    else if lowerStr name_central = "los angeles" then 45
    else 50
  (List.range 24).map (fun h =>
    (hourKey h, round2 (base + (h : Rat) * (1/2) + (r h - 1/2) * 5)))

/-- `get_cmg_programados` (operaciones_db.py:617): the *first* stored row for
`(central, fecha)` rendered as the 24 hourly values keyed `"00:00"`..`"23:00"`
(a null column falls back to `50.0 + hour`); when no row matches or the
session raises, the synthetic fallback curve. -/
def get_cmg_programados (sess : Except String ProgramadosStore)
    (name_central date_in : String) (r : Nat → Rat) : List (String × Rat) :=
  match sess with
  | .error _ => generate_fallback_cmg_programados name_central r
  | .ok s =>
      match (s.rows.filter (fun row =>
          row.central = name_central ∧ row.fecha_programado = date_in)).head? with
      | none => generate_fallback_cmg_programados name_central r
      | some row =>
          (List.range 24).map (fun h =>
            (hourKey h, ((row.vals.getD h none).getD (50 + (h : Rat)))))

/-! ## Status classification (Status Decision Engine rule)

Modelled from the spec: the classifier that maps a marginal-cost sample, the
computed operational cost and the configured margin to `"ON"`/`"OFF"`/`"HOLD"`
is part of the status-decision engine whose writer is not under `src/` (the
repository only stores and reads the resulting `status_operacional` strings).
Spec §4.5: `ON` if `marginal_cost >= computed_cost`, `OFF` if `marginal_cost`
is below `computed_cost` by more than the configured margin, `HOLD` otherwise;
the margin defaults to zero. -/
def classify_status (marginal_cost computed_cost margin : Rat) : String :=
  if marginal_cost ≥ computed_cost then "ON"
  else if marginal_cost < computed_cost - margin then "OFF"
  else "HOLD"

/-! ## Marginal-cost store (`cmg_ponderado`, models_orm.py:126) and its fallback -/

/-- A row of the `cmg_ponderado` table (the id primary key and the wall-clock
`timestamp` text column are display-only and not modelled; the windowed query
neither filters nor orders by them). -/
structure PonderadoRow where
  barra_transmision : String
  unix_time : Int
  cmg_ponderado : Rat
  deriving Repr, DecidableEq

/-- The `cmg_ponderado` table. -/
structure PonderadoStore where
  rows : List PonderadoRow
  deriving Repr, DecidableEq

/-- The descending hour offsets `range(delta_hours, 0, -1)` =
`[delta, delta-1, ..., 1]`. -/
def offsetsDesc : Nat → List Nat
  | 0 => []
  | n + 1 => (n + 1) :: offsetsDesc n

/-- One synthetic `cmg_ponderado` sample (`_legacydb_utils.py:89`): base value
per bus, a linear trend `(offset/delta)*10 - 5`, and a random perturbation
`(r - 0.5)*3`; epoch `delta` hours of 3600 s behind `unix_time_in`.  The draw
for the sample at offset `off` for bus index `busIdx ∈ {0, 1}` has stream
index `2*off + busIdx`. -/
def ponderadoSample (unix_time_in : Int) (delta : Nat) (r : Nat → Rat)
    (off : Nat) (busIdx : Nat) : PonderadoRow :=
  let base : Rat := if busIdx = 0 then 45.75 else 48.32
  let trend : Rat := ((off : Rat) / (delta : Rat)) * 10 - 5
  let random_var : Rat := (r (2 * off + busIdx) - 1/2) * 3
  { barra_transmision := if busIdx = 0 then "CHARRUA__220" else "QUILLOTA__220",
    unix_time := unix_time_in - (off : Int) * 3600,
    cmg_ponderado := round2 (base + trend + random_var) }

/-- Emit the two per-bus rows (`busIdx ∈ {0, 1}` following the iteration
order of the `base_values` dict) for each hour offset, oldest offset first. -/
def twoPerOffset {β : Type} (f : Nat → Nat → β) : List Nat → List β
  | [] => []
  | off :: rest => f off 0 :: f off 1 :: twoPerOffset f rest

/-- `generate_fallback_cmg_ponderado` (`_legacydb_utils.py:59`): one synthetic
sample per bus per whole hour of the `delta_hours` window ending at
`unix_time_in`, for the two canonical buses. -/
def generate_fallback_cmg_ponderado (unix_time_in : Int) (delta_hours : Nat)
    (r : Nat → Rat) : List PonderadoRow :=
  twoPerOffset (ponderadoSample unix_time_in delta_hours r) (offsetsDesc delta_hours)

/-- `query_cmg_ponderado_by_time` (operaciones_db.py:503): the stored rows
with `unix_time` in the inclusive window
`[unixtime - delta_hours*3600, unixtime]`, ordered by `unix_time` ascending;
when zero rows match, or the session raises, the synthetic fallback series is
returned instead. -/
def query_cmg_ponderado_by_time (sess : Except String PonderadoStore)
    (unixtime : Int) (delta_hours : Nat) (r : Nat → Rat) : List PonderadoRow :=
  match sess with
  | .error _ => generate_fallback_cmg_ponderado unixtime delta_hours r
  | .ok s =>
      let start_time := unixtime - (delta_hours : Int) * 3600
      let results := (s.rows.filter (fun row =>
          start_time ≤ row.unix_time ∧ row.unix_time ≤ unixtime)).insertionSort
          (fun a b => a.unix_time ≤ b.unix_time)
      if results.isEmpty then generate_fallback_cmg_ponderado unixtime delta_hours r
      else results

/-! ## Real-time CMG store (`cmg_tiempo_real`, models_orm.py:90) and its fallback -/

/-- A row of the `cmg_tiempo_real` table (the calendar display columns `año`,
`mes`, `dia`, `hora` are redundant renderings of `unix_time` and not
modelled). -/
structure TiempoRealRow where
  id_tracking : Int
  barra_transmision : String
  unix_time : Int
  desacople_bool : Bool
  cmg : Rat
  central_referencia : String
  deriving Repr, DecidableEq

/-- The `cmg_tiempo_real` table. -/
structure TiempoRealStore where
  rows : List TiempoRealRow
  deriving Repr, DecidableEq

/-- One synthetic `cmg_tiempo_real` sample (`_legacydb_utils.py:35`): base
value per bus with a `±2.5` perturbation, a 10% chance of `desacople_bool`,
and a simulated tracking id `unix_ts % 1000`.  The sample at offset `off` for
bus index `busIdx` uses stream indices `2*(2*off + busIdx)` for the value
draw and `2*(2*off + busIdx) + 1` for the decoupling draw. -/
def tiempoRealSample (unix_time_in : Int) (r : Nat → Rat) (off : Nat)
    (busIdx : Nat) : TiempoRealRow :=
  let unix_ts : Int := unix_time_in - (off : Int) * 3600
  let base : Rat := if busIdx = 0 then 45.75 else 48.32
  let variation : Rat := (r (2 * (2 * off + busIdx)) - 1/2) * 5
  { id_tracking := unix_ts % 1000,
    barra_transmision := if busIdx = 0 then "CHARRUA__220" else "QUILLOTA__220",
    unix_time := unix_ts,
    desacople_bool := r (2 * (2 * off + busIdx) + 1) < 1/10,
    cmg := round2 (base + variation),
    central_referencia := if busIdx = 0 then "Central Charrua" else "Central Quillota" }

/-- `generate_fallback_cmg_tiempo_real` (`_legacydb_utils.py:10`): one
synthetic sample per bus per whole hour of the fixed 24-hour window ending at
`unix_time_in`. -/
def generate_fallback_cmg_tiempo_real (unix_time_in : Int) (r : Nat → Rat) :
    List TiempoRealRow :=
  twoPerOffset (tiempoRealSample unix_time_in r) (offsetsDesc 24)

/-! ## Exposed read operations (claim C10 surface) -/

/-- SQL `LIKE '%pat%'`: substring containment. -/
def containsSubstr (s pat : String) : Bool :=
  decide (pat.toList <:+: s.toList)

/-- `ORDER BY unix_time DESC LIMIT 1` over `cmg_tiempo_real` rows (ties keep
the first row). -/
def maxByUnixTR (rows : List TiempoRealRow) : Option TiempoRealRow :=
  argmaxBy (fun m row => row.unix_time > m.unix_time) rows

/-- `query_values_last_desacople_bool` (operaciones_db.py:245): three matching
stages against the uppercased query name with `_220` rewritten to `_22O` —
exact match, `LIKE` containment, then containment of the part before the
first underscore — each taking the most recent row; `(None, None, None)` when
nothing matches or the session raises. -/
def query_values_last_desacople_bool (sess : Except String TiempoRealStore)
    (barra_transmision : String) : Option String × Option Bool × Option Rat :=
  match sess with
  | .error _ => (none, none, none)
  | .ok s =>
      let barra_query := (upperStr barra_transmision).replace "_220" "_22O"
      let stage1 := maxByUnixTR (s.rows.filter
        (fun row => upperStr row.barra_transmision = barra_query))
      match stage1 with
      | some row => (some row.central_referencia, some row.desacople_bool, some row.cmg)
      | none =>
          let stage2 := maxByUnixTR (s.rows.filter
            (fun row => containsSubstr (upperStr row.barra_transmision) barra_query))
          match stage2 with
          | some row => (some row.central_referencia, some row.desacople_bool, some row.cmg)
          | none =>
              let pre := (barra_query.splitOn "_").headD barra_query
              let stage3 := maxByUnixTR (s.rows.filter
                (fun row => containsSubstr (upperStr row.barra_transmision) pre))
              match stage3 with
              | some row =>
                  (some row.central_referencia, some row.desacople_bool, some row.cmg)
              | none => (none, none, none)

/-- `ORDER BY unix_time DESC LIMIT 1` over `status_central` rows (ties keep
the first row). -/
def maxByUnixStatus (rows : List StatusRow) : Option StatusRow :=
  argmaxBy (fun m row => row.unix_time > m.unix_time) rows

/-- `get_latest_status_central` (operaciones_db.py:698): the
`status_operacional` of the plant's most recent status row; `None` when the
plant has no rows or the session raises. -/
def get_latest_status_central (sess : Except String StatusStore)
    (central_name : String) : Option String :=
  match sess with
  | .error _ => none
  | .ok s =>
      match maxByUnixStatus (s.rows.filter (fun row => row.central = central_name)) with
      | none => none
      | some row => some row.status_operacional

/-- One row of the DataFrame built by `get_status_central_history` (the
`timestamp`/`fecha`/`hora` display strings are not modelled). -/
structure HistoryEntry where
  id : Nat
  central : String
  barra : String
  unix_time : Int
  cmg_ponderado : Rat
  status_operacional : String
  generando : Bool
  costo_operacional : Option Rat
  deriving Repr, DecidableEq

/-- `get_status_central_history` (operaciones_db.py:725): status rows,
optionally filtered to the given plants, most recent first, truncated to
`limit` when it is non-zero, each joined with the `costo_operacional` of the
snapshot it references (`None` when that snapshot is missing); the empty
DataFrame when there are no rows or the session raises. -/
def get_status_central_history (sess : Except String (StatusStore × CostoOpStore))
    (limit : Nat) (centrals : Option (List String)) : List HistoryEntry :=
  match sess with
  | .error _ => []
  | .ok (s, cs) =>
      let filtered : List StatusRow :=
        match centrals with
        | some names => s.rows.filter (fun row => names.contains row.central)
        | none => s.rows
      let ordered : List StatusRow :=
        filtered.insertionSort (fun a b => a.unix_time ≥ b.unix_time)
      let limited : List StatusRow := if limit ≠ 0 then ordered.take limit else ordered
      limited.map (fun status =>
        let costo_op : Option CostoOpRow :=
          cs.rows.find? (fun c => c.id = status.costo_operacional_id)
        { id := status.id, central := status.central, barra := status.barra,
          unix_time := status.unix_time, cmg_ponderado := status.cmg_ponderado,
          status_operacional := status.status_operacional,
          generando := status.status_operacional = "ON",
          costo_operacional := costo_op.map (·.costo_operacional) })

end HBS

namespace HBS

section ArgmaxSpec

variable {α : Type} (better : α → α → Prop) [DecidableRel better]
variable (le : α → α → Prop)

/-- If the scan ends with no row, it saw no row. -/
theorem argmax_go_none (rows : List α) (acc : Option α)
    (h : rows.foldl (argmaxStep better) acc = none) : rows = [] ∧ acc = none := by
  induction rows generalizing acc with
  | nil => exact ⟨rfl, h⟩
  | cons r rest ih =>
      rcases ih (argmaxStep better acc r) h with ⟨-, hstep⟩
      cases acc with
      | none => simp [argmaxStep] at hstep
      | some m =>
          by_cases hc : better m r <;> simp [argmaxStep, hc] at hstep

/-- The row kept by the scan is one of the rows seen (or the starting
accumulator) and sorts no earlier than any of them, where `le` is any
preorder-like closure of `better`: reflexive, transitive, containing `better`
and containing the reverse of its complement. -/
theorem argmax_go_spec (hrefl : ∀ a, le a a)
    (htrans : ∀ {a b c}, le a b → le b c → le a c)
    (hbet : ∀ {a b}, better a b → le a b)
    (hnbet : ∀ {a b}, ¬ better a b → le b a)
    (rows : List α) (acc : Option α) (m : α)
    (h : rows.foldl (argmaxStep better) acc = some m) :
    (acc = some m ∨ m ∈ rows) ∧ (∀ p, acc = some p → le p m) ∧
      (∀ x ∈ rows, le x m) := by
  induction rows generalizing acc with
  | nil =>
      simp only [List.foldl_nil] at h
      refine ⟨Or.inl h, ?_, ?_⟩
      · intro p hp
        rw [h] at hp
        cases hp
        exact hrefl m
      · intro x hx
        exact absurd hx (List.not_mem_nil x)
  | cons r rest ih =>
      rw [List.foldl_cons] at h
      rcases ih (argmaxStep better acc r) h with ⟨hmem, hacc, hrest⟩
      have hx_of : (argmaxStep better acc r = some m ∨ m ∈ rest) → m ∈ r :: rest ∨
          ∃ p, acc = some p ∧ argmaxStep better acc r = some p ∧ m = p := by
        intro hd
        rcases hd with hd | hd
        · cases acc with
          | none =>
              simp only [argmaxStep] at hd
              cases hd
              exact Or.inl (List.mem_cons_self _ _)
          | some p =>
              by_cases hc : better p r
              · simp only [argmaxStep, if_pos hc] at hd
                cases hd
                exact Or.inl (List.mem_cons_self _ _)
              · simp only [argmaxStep, if_neg hc] at hd
                cases hd
                exact Or.inr ⟨m, rfl, by simp [argmaxStep, hc], rfl⟩
        · exact Or.inl (List.mem_cons_of_mem r hd)
      have hstep_le : ∀ x ∈ r :: rest, le x m := by
        intro x hx
        rcases List.mem_cons.1 hx with rfl | hx
        · cases acc with
          | none => exact hacc x (by simp [argmaxStep])
          | some p =>
              by_cases hc : better p x
              · exact hacc x (by simp [argmaxStep, hc])
              · exact htrans (hnbet hc) (hacc p (by simp [argmaxStep, hc]))
        · exact hrest x hx
      refine ⟨?_, ?_, hstep_le⟩
      · rcases hx_of hmem with hd | ⟨p, hp, -, rfl⟩
        · exact Or.inr hd
        · exact Or.inl hp
      · intro q hq
        subst hq
        cases hq' : argmaxStep better (some q) r with
        | none =>
            by_cases hc : better q r <;> simp [argmaxStep, hc] at hq'
        | some w =>
            have hw : le w m := hacc w hq'
            by_cases hc : better q r
            · have : w = r := by
                simp only [argmaxStep, if_pos hc] at hq'
                exact (Option.some.injEq _ _ ▸ hq').symm ▸ rfl
              subst this
              exact htrans (hbet hc) hw
            · have : w = q := by
                simp only [argmaxStep, if_neg hc] at hq'
                cases hq'
                rfl
              subst this
              exact hw

/-- Specification of `argmaxBy` on a nonempty result. -/
theorem argmaxBy_spec (hrefl : ∀ a, le a a)
    (htrans : ∀ {a b c}, le a b → le b c → le a c)
    (hbet : ∀ {a b}, better a b → le a b)
    (hnbet : ∀ {a b}, ¬ better a b → le b a)
    (rows : List α) (m : α) (h : argmaxBy better rows = some m) :
    m ∈ rows ∧ ∀ x ∈ rows, le x m := by
  rcases argmax_go_spec better le hrefl htrans hbet hnbet rows none m h with ⟨hmem, -, hall⟩
  rcases hmem with hm | hm
  · cases hm
  · exact ⟨hm, hall⟩

/-- `argmaxBy` is `none` exactly on the empty list. -/
theorem argmaxBy_eq_none (rows : List α) (h : argmaxBy better rows = none) :
    rows = [] :=
  (argmax_go_none better rows none h).1

end ArgmaxSpec

end HBS

namespace HBS

/-- The reflexive closure of `costoLexLt`: `a` sorts no later than `b` under
`ORDER BY unix_time DESC, id DESC`. -/
def costoLexLe (a b : CostoOpRow) : Prop :=
  a.unix_time < b.unix_time ∨ (a.unix_time = b.unix_time ∧ a.id ≤ b.id)

theorem retrieve_costo_operacional_spec (s : CostoOpStore) (n : String) (c : CostoOpRow)
    (h : retrieve_costo_operacional (.ok s) n = some c) :
    c ∈ s.rows ∧ c.central_nombre = n ∧
      ∀ x ∈ s.rows, x.central_nombre = n → costoLexLe x c := by
  have hspec := argmaxBy_spec costoLexLt costoLexLe
    (fun a => Or.inr ⟨rfl, le_refl _⟩)
    (by
      intro a b c hab hbc
      rcases hab with h1 | ⟨h1, h1'⟩ <;> rcases hbc with h2 | ⟨h2, h2'⟩ <;>
        simp only [costoLexLe] <;> omega)
    (by
      intro a b hab
      rcases hab with h1 | ⟨h1, h1'⟩ <;> simp only [costoLexLe] <;> omega)
    (by
      intro a b hab
      simp only [costoLexLt, not_or, not_and, not_lt] at hab
      simp only [costoLexLe]
      omega)
    (s.rows.filter (fun row => row.central_nombre = n)) c h
  rcases hspec with ⟨hmem, hall⟩
  rcases List.mem_filter.1 hmem with ⟨hc_mem, hc_name⟩
  refine ⟨hc_mem, by simpa using hc_name, ?_⟩
  intro x hx hname
  exact hall x (List.mem_filter.2 ⟨hx, by simpa using hname⟩)

/-- C1: `insert_status_central` writes nothing and returns `None` when the
plant has no operational-cost snapshot; when it does write, the record links
`costo_operacional_id` to the id of the plant's latest snapshot — the maximal
one under `ORDER BY unix_time DESC, id DESC` — and appends exactly that
record. -/
theorem insert_status_central_links_latest_snapshot
    (costoSess : Except String CostoOpStore) (s : StatusStore)
    (central barra : String) (ut : Int) (cmg : Rat) (st : String) :
    (retrieve_costo_operacional costoSess central = none →
      insert_status_central costoSess s central barra ut cmg st = (none, s)) ∧
    (∀ r s', insert_status_central costoSess s central barra ut cmg st = (some r, s') →
      ∃ c, retrieve_costo_operacional costoSess central = some c ∧
        r.costo_operacional_id = c.id ∧ s'.rows = s.rows ++ [r] ∧
        (∀ s₀, costoSess = .ok s₀ →
          c ∈ s₀.rows ∧ c.central_nombre = central ∧
            ∀ x ∈ s₀.rows, x.central_nombre = central → costoLexLe x c)) := by
  constructor
  · intro h
    unfold insert_status_central
    rw [h]
  · intro r s' h
    simp only [insert_status_central] at h
    cases hret : retrieve_costo_operacional costoSess central with
    | none => rw [hret] at h; cases h
    | some c =>
        rw [hret] at h
        by_cases hc : statusConflict s central ut = true
        · simp [hc] at h
        · simp only [hc, if_false, Bool.false_eq_true, Prod.mk.injEq,
            Option.some.injEq] at h
          obtain ⟨h3, h4⟩ := h
          refine ⟨c, rfl, by rw [← h3], by rw [← h4, ← h3], ?_⟩
          intro s₀ hs₀
          rw [hs₀] at hret
          exact retrieve_costo_operacional_spec s₀ central c hret

end HBS

namespace HBS

theorem insert_status_central_links_latest_snapshot_witness :
    insert_status_central (Except.ok (⟨[], 1⟩ : CostoOpStore)) (⟨[], 1⟩ : StatusStore)
      "Quillota" "QUILLOTA__220" 100 60 "ON" = (none, (⟨[], 1⟩ : StatusStore)) ∧
    (∃ c, retrieve_costo_operacional
        (Except.ok (⟨[⟨1, some 1, "Quillota", 100, 50, "sistema"⟩], 2⟩ : CostoOpStore))
        "Quillota" = some c ∧
      (⟨1, "Quillota", "QUILLOTA__220", 200, 60, "ON", 1⟩ : StatusRow).costo_operacional_id
          = c.id ∧
      (⟨[⟨1, "Quillota", "QUILLOTA__220", 200, 60, "ON", 1⟩], 2⟩ : StatusStore).rows =
        (⟨[], 1⟩ : StatusStore).rows ++ [⟨1, "Quillota", "QUILLOTA__220", 200, 60, "ON", 1⟩] ∧
      (∀ s₀, (Except.ok (⟨[⟨1, some 1, "Quillota", 100, 50, "sistema"⟩], 2⟩ : CostoOpStore) :
            Except String CostoOpStore) = .ok s₀ →
        c ∈ s₀.rows ∧ c.central_nombre = "Quillota" ∧
          ∀ x ∈ s₀.rows, x.central_nombre = "Quillota" → costoLexLe x c)) := by
  constructor
  · exact (insert_status_central_links_latest_snapshot
      (Except.ok ⟨[], 1⟩) ⟨[], 1⟩ "Quillota" "QUILLOTA__220" 100 60 "ON").1 rfl
  · exact (insert_status_central_links_latest_snapshot
      (Except.ok ⟨[⟨1, some 1, "Quillota", 100, 50, "sistema"⟩], 2⟩) ⟨[], 1⟩
      "Quillota" "QUILLOTA__220" 200 60 "ON").2
      ⟨1, "Quillota", "QUILLOTA__220", 200, 60, "ON", 1⟩
      ⟨[⟨1, "Quillota", "QUILLOTA__220", 200, 60, "ON", 1⟩], 2⟩ rfl

/-- C2: at most one status record per (plant, epoch): when a record with the
same `(central, unix_time)` key already exists, `insert_status_central`
returns `None` and leaves the store unchanged; in particular a second call
with the same inputs right after a successful insert is rejected and the
store — including the record just written — is untouched. -/
theorem insert_status_central_idempotent
    (costoSess : Except String CostoOpStore) (s : StatusStore)
    (central barra : String) (ut : Int) (cmg : Rat) (st : String) :
    ((∃ row ∈ s.rows, row.central = central ∧ row.unix_time = ut) →
      insert_status_central costoSess s central barra ut cmg st = (none, s)) ∧
    (∀ r s', insert_status_central costoSess s central barra ut cmg st = (some r, s') →
      insert_status_central costoSess s' central barra ut cmg st = (none, s')) := by
  constructor
  · intro hdup
    have hc : statusConflict s central ut = true := by
      rcases hdup with ⟨row, hrow, h1, h2⟩
      unfold statusConflict
      rw [List.any_eq_true]
      exact ⟨row, hrow, by simp [h1, h2]⟩
    unfold insert_status_central
    cases retrieve_costo_operacional costoSess central with
    | none => rfl
    | some c => simp [hc]
  · intro r s' h
    simp only [insert_status_central] at h
    cases hret : retrieve_costo_operacional costoSess central with
    | none => rw [hret] at h; cases h
    | some c =>
        rw [hret] at h
        by_cases hc : statusConflict s central ut = true
        · simp [hc] at h
        · simp only [hc, if_false, Bool.false_eq_true, Prod.mk.injEq,
            Option.some.injEq] at h
          obtain ⟨h3, h4⟩ := h
          have hc' : statusConflict s' central ut = true := by
            unfold statusConflict
            rw [List.any_eq_true]
            refine ⟨r, ?_, by rw [← h3]; simp⟩
            rw [← h4, ← h3]
            simp
          unfold insert_status_central
          rw [hret]
          simp [hc']

theorem insert_status_central_idempotent_witness :
    insert_status_central
      (Except.ok (⟨[⟨1, some 1, "Quillota", 100, 50, "sistema"⟩], 2⟩ : CostoOpStore))
      (⟨[⟨7, "Quillota", "QUILLOTA__220", 200, 44, "OFF", 1⟩], 8⟩ : StatusStore)
      "Quillota" "QUILLOTA__220" 200 60 "ON" =
      (none, (⟨[⟨7, "Quillota", "QUILLOTA__220", 200, 44, "OFF", 1⟩], 8⟩ : StatusStore)) ∧
    insert_status_central
      (Except.ok (⟨[⟨1, some 1, "Quillota", 100, 50, "sistema"⟩], 2⟩ : CostoOpStore))
      (⟨[⟨1, "Quillota", "QUILLOTA__220", 200, 60, "ON", 1⟩], 2⟩ : StatusStore)
      "Quillota" "QUILLOTA__220" 200 60 "ON" =
      (none, (⟨[⟨1, "Quillota", "QUILLOTA__220", 200, 60, "ON", 1⟩], 2⟩ : StatusStore)) := by
  constructor
  · exact (insert_status_central_idempotent
      (Except.ok ⟨[⟨1, some 1, "Quillota", 100, 50, "sistema"⟩], 2⟩)
      ⟨[⟨7, "Quillota", "QUILLOTA__220", 200, 44, "OFF", 1⟩], 8⟩
      "Quillota" "QUILLOTA__220" 200 60 "ON").1
      ⟨⟨7, "Quillota", "QUILLOTA__220", 200, 44, "OFF", 1⟩, by simp, rfl, rfl⟩
  · exact (insert_status_central_idempotent
      (Except.ok ⟨[⟨1, some 1, "Quillota", 100, 50, "sistema"⟩], 2⟩)
      ⟨[], 1⟩ "Quillota" "QUILLOTA__220" 200 60 "ON").2
      ⟨1, "Quillota", "QUILLOTA__220", 200, 60, "ON", 1⟩
      ⟨[⟨1, "Quillota", "QUILLOTA__220", 200, 60, "ON", 1⟩], 2⟩ rfl

end HBS

namespace HBS

/-- An `argmaxBy` scan over `rows ++ [r]` ends on `r` whenever `r` strictly
beats every earlier row. -/
theorem argmaxBy_append_last {α : Type} (better : α → α → Prop) [DecidableRel better]
    (rows : List α) (r : α) (h : ∀ x ∈ rows, better x r) :
    argmaxBy better (rows ++ [r]) = some r := by
  unfold argmaxBy
  rw [List.foldl_append]
  cases hm : rows.foldl (argmaxStep better) none with
  | none => simp [argmaxStep]
  | some m =>
      have hmem := (argmax_go_spec better (fun _ _ => True) (fun _ => trivial)
        (fun _ _ => trivial) (fun _ => trivial) (fun _ => trivial) rows none m hm).1
      rcases hmem with hmem | hmem
      · cases hmem
      · simp [List.foldl_cons, argmaxStep, h m hmem]

/-- C6 counterexample: the plant `"Quillota"` holds a snapshot at epoch 200
with cost 50; `inject_costo_operacional` succeeds at the earlier epoch 100
with cost 99, yet `retrieve_costo_operacional` immediately afterwards still
returns the old snapshot with cost 50 ≠ 99 — the claim's "inject followed
immediately by retrieve returns the value just recorded" fails for a
backdated `unix_time`. -/
theorem inject_then_retrieve_counterexample :
    (inject_costo_operacional ⟨[⟨1, some 1, "Quillota", 200, 50, "sistema"⟩], 2⟩
        "Quillota" 99 100 (some 1) "editor").1 =
      some ⟨2, some 1, "Quillota", 100, 99, "editor"⟩ ∧
    retrieve_costo_operacional
        (.ok (inject_costo_operacional ⟨[⟨1, some 1, "Quillota", 200, 50, "sistema"⟩], 2⟩
          "Quillota" 99 100 (some 1) "editor").2) "Quillota" =
      some ⟨1, some 1, "Quillota", 200, 50, "sistema"⟩ ∧
    (⟨1, some 1, "Quillota", 200, 50, "sistema"⟩ : CostoOpRow).costo_operacional ≠ 99 := by
  refine ⟨rfl, rfl, by decide⟩

/-- C6 amended: every successful `inject_costo_operacional` appends exactly
one snapshot row carrying the recorded value (strictly increasing the
plant's row count, with success independent of whether the value equals the
previous snapshot's); and provided the new snapshot's epoch is at least that
of every existing snapshot for the plant (as with default ingestion-time
timestamps), an immediate `retrieve_costo_operacional` returns exactly the
snapshot just recorded. -/
theorem inject_costo_operacional_amended (s : CostoOpStore) (n : String) (v : Rat)
    (ut : Int) (cid : Option Nat) (ed : String) :
    (∀ r s', inject_costo_operacional s n v ut cid ed = (some r, s') →
      r.costo_operacional = v ∧ r.central_nombre = n ∧ s'.rows = s.rows ++ [r]) ∧
    (∀ v' : Rat, (inject_costo_operacional s n v ut cid ed).1.isSome =
      (inject_costo_operacional s n v' ut cid ed).1.isSome) ∧
    ((∀ x ∈ s.rows, x.id < s.nextId) →
      (∀ x ∈ s.rows, x.central_nombre = n → x.unix_time ≤ ut) →
      ∀ r s', inject_costo_operacional s n v ut cid ed = (some r, s') →
        retrieve_costo_operacional (.ok s') n = some r) := by
  have hshape : ∀ (v₀ : Rat) r s', inject_costo_operacional s n v₀ ut cid ed = (some r, s') →
      r = ⟨s.nextId, cid, n, ut, v₀, ed⟩ ∧
        s' = ⟨s.rows ++ [(⟨s.nextId, cid, n, ut, v₀, ed⟩ : CostoOpRow)], s.nextId + 1⟩ := by
    intro v₀ r s' h
    unfold inject_costo_operacional at h
    by_cases hc : costoOpConflict s cid ut = true
    · simp [hc] at h
    · simp only [hc, if_false, Bool.false_eq_true, Prod.mk.injEq, Option.some.injEq] at h
      exact ⟨h.1.symm, h.2.symm⟩
  refine ⟨?_, ?_, ?_⟩
  · intro r s' h
    obtain ⟨hr, hs'⟩ := hshape v r s' h
    subst hr
    subst hs'
    exact ⟨rfl, rfl, rfl⟩
  · intro v'
    unfold inject_costo_operacional
    by_cases hc : costoOpConflict s cid ut = true <;> simp [hc]
  · intro hwf hle r s' h
    obtain ⟨hr, hs'⟩ := hshape v r s' h
    subst hr
    subst hs'
    show argmaxBy costoLexLt
        (List.filter (fun row => decide (row.central_nombre = n))
          (s.rows ++ [(⟨s.nextId, cid, n, ut, v, ed⟩ : CostoOpRow)])) =
      some (⟨s.nextId, cid, n, ut, v, ed⟩ : CostoOpRow)
    rw [List.filter_append]
    have hfr : List.filter (fun row => decide (row.central_nombre = n))
        [(⟨s.nextId, cid, n, ut, v, ed⟩ : CostoOpRow)] =
        [(⟨s.nextId, cid, n, ut, v, ed⟩ : CostoOpRow)] := by
      simp
    rw [hfr]
    apply argmaxBy_append_last
    intro x hx
    rcases List.mem_filter.1 hx with ⟨hx_mem, hx_name⟩
    have hname : x.central_nombre = n := by simpa using hx_name
    have h1 := hwf x hx_mem
    have h2 := hle x hx_mem hname
    unfold costoLexLt
    rcases lt_or_eq_of_le h2 with h2' | h2'
    · exact Or.inl h2'
    · exact Or.inr ⟨h2'.symm, h1⟩

theorem inject_costo_operacional_amended_witness :
    ((⟨2, some 1, "Quillota", 300, 50, "editor"⟩ : CostoOpRow).costo_operacional = 50 ∧
      (⟨2, some 1, "Quillota", 300, 50, "editor"⟩ : CostoOpRow).central_nombre = "Quillota" ∧
      (⟨[⟨1, some 1, "Quillota", 200, 50, "sistema"⟩,
          ⟨2, some 1, "Quillota", 300, 50, "editor"⟩], 3⟩ : CostoOpStore).rows =
        (⟨[⟨1, some 1, "Quillota", 200, 50, "sistema"⟩], 2⟩ : CostoOpStore).rows ++
          [⟨2, some 1, "Quillota", 300, 50, "editor"⟩]) ∧
    retrieve_costo_operacional
      (.ok (⟨[⟨1, some 1, "Quillota", 200, 50, "sistema"⟩,
          ⟨2, some 1, "Quillota", 300, 50, "editor"⟩], 3⟩ : CostoOpStore)) "Quillota" =
      some ⟨2, some 1, "Quillota", 300, 50, "editor"⟩ := by
  constructor
  · exact (inject_costo_operacional_amended
      ⟨[⟨1, some 1, "Quillota", 200, 50, "sistema"⟩], 2⟩ "Quillota" 50 300 (some 1)
      "editor").1 ⟨2, some 1, "Quillota", 300, 50, "editor"⟩
      ⟨[⟨1, some 1, "Quillota", 200, 50, "sistema"⟩,
        ⟨2, some 1, "Quillota", 300, 50, "editor"⟩], 3⟩ rfl
  · exact (inject_costo_operacional_amended
      ⟨[⟨1, some 1, "Quillota", 200, 50, "sistema"⟩], 2⟩ "Quillota" 50 300 (some 1)
      "editor").2.2 (by decide) (by decide)
      ⟨2, some 1, "Quillota", 300, 50, "editor"⟩
      ⟨[⟨1, some 1, "Quillota", 200, 50, "sistema"⟩,
        ⟨2, some 1, "Quillota", 300, 50, "editor"⟩], 3⟩ rfl

end HBS

namespace HBS

/-- C7 counterexample: two `inject_cmg_programados` calls for the same
`("C", "D")` key leave two rows in the table (no replacement), and
`get_cmg_programados` then returns the first ingestion's 24 values (all 1),
not the re-ingested ones (all 2). -/
theorem inject_cmg_programados_counterexample :
    ((inject_cmg_programados
        (inject_cmg_programados ⟨[], 1⟩ "C" "R" "D"
          ((List.range 24).map (fun h => (hourKey h, (1 : Rat))))).2
        "C" "R" "D" ((List.range 24).map (fun h => (hourKey h, (2 : Rat))))).2.rows.length
      = 2) ∧
    get_cmg_programados
      (.ok (inject_cmg_programados
        (inject_cmg_programados ⟨[], 1⟩ "C" "R" "D"
          ((List.range 24).map (fun h => (hourKey h, (1 : Rat))))).2
        "C" "R" "D" ((List.range 24).map (fun h => (hourKey h, (2 : Rat))))).2)
      "C" "D" (fun _ => 0)
      = (List.range 24).map (fun h => (hourKey h, (1 : Rat))) ∧
    (List.range 24).map (fun h => (hourKey h, (1 : Rat))) ≠
      (List.range 24).map (fun h => (hourKey h, (2 : Rat))) := by
  refine ⟨rfl, rfl, by decide⟩

end HBS

namespace HBS

/-- C7 amended: `inject_cmg_programados` appends one new row and never
replaces or deletes an existing one; for a `(central, fecha)` key with no
prior row, a subsequent `get_cmg_programados` returns exactly the 24 stored
values keyed `"00:00"`..`"23:00"` in that order; when a row for the key
already exists, re-ingestion leaves the output of `get_cmg_programados`
unchanged — the earliest stored row still wins. -/
theorem inject_cmg_programados_amended (s : ProgramadosStore)
    (central ref fecha : String) (vals : List (String × Rat)) (f : Nat → Rat)
    (rand : Nat → Rat) :
    (∀ r s', inject_cmg_programados s central ref fecha vals = (r, s') →
      s'.rows = s.rows ++ [r]) ∧
    ((∀ row ∈ s.rows, ¬ (row.central = central ∧ row.fecha_programado = fecha)) →
      (∀ h < 24, (vals.find? (fun kv => kv.1 = hourKey h)).map (·.2) = some (f h)) →
      ∀ r s', inject_cmg_programados s central ref fecha vals = (r, s') →
        get_cmg_programados (.ok s') central fecha rand =
          (List.range 24).map (fun h => (hourKey h, f h))) ∧
    ((∃ row ∈ s.rows, row.central = central ∧ row.fecha_programado = fecha) →
      ∀ r s', inject_cmg_programados s central ref fecha vals = (r, s') →
        get_cmg_programados (.ok s') central fecha rand =
          get_cmg_programados (.ok s) central fecha rand) := by
  have hshape : ∀ r s', inject_cmg_programados s central ref fecha vals = (r, s') →
      r = ⟨s.nextId, central, ref, fecha,
          (List.range 24).map (fun h =>
            (vals.find? (fun kv => kv.1 = hourKey h)).map (·.2))⟩ ∧
        s'.rows = s.rows ++ [r] := by
    intro r s' h
    unfold inject_cmg_programados at h
    simp only [Prod.mk.injEq] at h
    obtain ⟨h1, h2⟩ := h
    subst h1
    constructor
    · rfl
    · rw [← h2]
  refine ⟨fun r s' h => (hshape r s' h).2, ?_, ?_⟩
  · intro hempty hvals r s' h
    obtain ⟨hr, hs'⟩ := hshape r s' h
    have hfilter : s'.rows.filter (fun row =>
        decide (row.central = central ∧ row.fecha_programado = fecha)) = [r] := by
      rw [hs', List.filter_append]
      have h1 : s.rows.filter (fun row =>
          decide (row.central = central ∧ row.fecha_programado = fecha)) = [] := by
        rw [List.filter_eq_nil_iff]
        intro row hrow
        simpa using hempty row hrow
      have h2 : List.filter (fun row =>
          decide (row.central = central ∧ row.fecha_programado = fecha)) [r] = [r] := by
        rw [hr]
        simp
      rw [h1, h2, List.nil_append]
    show (match (s'.rows.filter (fun row =>
        decide (row.central = central ∧ row.fecha_programado = fecha))).head? with
      | none => generate_fallback_cmg_programados central rand
      | some row => (List.range 24).map (fun h =>
          (hourKey h, ((row.vals.getD h none).getD (50 + (h : Rat)))))) =
      (List.range 24).map (fun h => (hourKey h, f h))
    rw [hfilter]
    simp only [List.head?_cons]
    apply List.map_congr_left
    intro h hh
    have hlt : h < 24 := List.mem_range.1 hh
    have hv : r.vals.getD h none = some (f h) := by
      rw [hr]
      show (((List.range 24).map (fun h =>
        (vals.find? (fun kv => kv.1 = hourKey h)).map (·.2))).getD h none) = some (f h)
      rw [List.getD_eq_getElem?_getD, List.getElem?_map, List.getElem?_range hlt]
      simpa using hvals h hlt
    rw [hv]
    rfl
  · intro hexists r s' h
    obtain ⟨hr, hs'⟩ := hshape r s' h
    have hne : s.rows.filter (fun row =>
        decide (row.central = central ∧ row.fecha_programado = fecha)) ≠ [] := by
      rcases hexists with ⟨row, hrow, hp⟩
      intro hnil
      have := List.filter_eq_nil_iff.1 hnil row hrow
      simp [hp.1, hp.2] at this
    show (match (s'.rows.filter (fun row =>
        decide (row.central = central ∧ row.fecha_programado = fecha))).head? with
      | none => generate_fallback_cmg_programados central rand
      | some row => (List.range 24).map (fun h =>
          (hourKey h, ((row.vals.getD h none).getD (50 + (h : Rat)))))) =
      get_cmg_programados (.ok s) central fecha rand
    rw [hs', List.filter_append]
    have hhead : (s.rows.filter (fun row =>
          decide (row.central = central ∧ row.fecha_programado = fecha)) ++
        List.filter (fun row =>
          decide (row.central = central ∧ row.fecha_programado = fecha)) [r]).head? =
        (s.rows.filter (fun row =>
          decide (row.central = central ∧ row.fecha_programado = fecha))).head? := by
      cases hcase : s.rows.filter (fun row =>
          decide (row.central = central ∧ row.fecha_programado = fecha)) with
      | nil => exact absurd hcase hne
      | cons a l => simp
    rw [hhead]
    rfl

end HBS

namespace HBS

theorem inject_cmg_programados_amended_witness :
    get_cmg_programados
      (.ok (⟨[⟨1, "C", "R", "D", List.replicate 24 (some 1)⟩], 2⟩ : ProgramadosStore))
      "C" "D" (fun _ => 0) =
      (List.range 24).map (fun h => (hourKey h, (fun _ => (1 : Rat)) h)) ∧
    get_cmg_programados
      (.ok (⟨[⟨1, "C", "R", "D", List.replicate 24 (some 1)⟩,
        ⟨2, "C", "R", "D", List.replicate 24 (some 2)⟩], 3⟩ : ProgramadosStore))
      "C" "D" (fun _ => 0) =
      get_cmg_programados
        (.ok (⟨[⟨1, "C", "R", "D", List.replicate 24 (some 1)⟩], 2⟩ : ProgramadosStore))
        "C" "D" (fun _ => 0) := by
  constructor
  · exact (inject_cmg_programados_amended ⟨[], 1⟩ "C" "R" "D"
      ((List.range 24).map (fun h => (hourKey h, (1 : Rat)))) (fun _ => 1) (fun _ => 0)).2.1
      (by simp) (by decide)
      ⟨1, "C", "R", "D", List.replicate 24 (some 1)⟩
      ⟨[⟨1, "C", "R", "D", List.replicate 24 (some 1)⟩], 2⟩ rfl
  · exact (inject_cmg_programados_amended
      ⟨[⟨1, "C", "R", "D", List.replicate 24 (some 1)⟩], 2⟩ "C" "R" "D"
      ((List.range 24).map (fun h => (hourKey h, (2 : Rat)))) (fun _ => 2) (fun _ => 0)).2.2
      ⟨⟨1, "C", "R", "D", List.replicate 24 (some 1)⟩, by simp, rfl, rfl⟩
      ⟨2, "C", "R", "D", List.replicate 24 (some 2)⟩
      ⟨[⟨1, "C", "R", "D", List.replicate 24 (some 1)⟩,
        ⟨2, "C", "R", "D", List.replicate 24 (some 2)⟩], 3⟩ rfl

end HBS

namespace HBS

/-- C8 counterexample: an event for `CHARRUA__220` is stored, then a *stale*
observation (detected_at 50 < 100) arrives under the variant spelling
`CHARRUA`.  Were the bus name canonicalized before the write, the upsert
would reject it and keep one row; instead the raw-keyed lookup misses, a
second row is inserted for the same physical bus, and the stale event is
returned as freshly stored. -/
theorem upsert_desacople_counterexample :
    (upsert_desacople_history
      (upsert_desacople_history ⟨[], 1⟩ "CHARRUA__220" "desacoplado" 100 none none none).2
      "CHARRUA" "acoplado" 50 none none none).2.rows.length = 2 ∧
    (upsert_desacople_history
      (upsert_desacople_history ⟨[], 1⟩ "CHARRUA__220" "desacoplado" 100 none none none).2
      "CHARRUA" "acoplado" 50 none none none).1.detected_at = 50 :=
  ⟨rfl, rfl⟩

/-- Two lists with the same members agree on `contains` everywhere. -/
theorem contains_eq_of_mem_iff {l1 l2 : List String}
    (h1 : ∀ a ∈ l1, a ∈ l2) (h2 : ∀ a ∈ l2, a ∈ l1) (x : String) :
    l1.contains x = l2.contains x := by
  rw [Bool.eq_iff_iff]
  simp only [List.elem_eq_mem, decide_eq_true_eq]
  exact ⟨fun h => h1 x h, fun h => h2 x h⟩

/-- C8 amended: only the read side canonicalizes.  `get_latest_desacople_event`
returns the same latest event through any known spelling variant of either
physical bus, but `upsert_desacople_history` keys rows by the raw bus name:
whenever no stored row matches the raw spelling exactly, it inserts a fresh
row — even if rows for other variants of the same physical bus exist. -/
theorem desacople_normalization_amended (sess : Except String DesacopleStore)
    (s : DesacopleStore) (b barra estado : String) (detected_at : Int)
    (tramo comentario fuente : Option String) :
    (b ∈ ["CHARRUA", "CHARRUA_220", "CHARRUA_22O", "CHARRUA__220"] →
      get_latest_desacople_event sess b = get_latest_desacople_event sess "CHARRUA__220") ∧
    (b ∈ ["QUILLOTA", "QUILLOTA_220", "QUILLOTA_22O", "QUILLOTA__220"] →
      get_latest_desacople_event sess b = get_latest_desacople_event sess "QUILLOTA__220") ∧
    ((∀ row ∈ s.rows, row.barra_transmision ≠ barra) →
      (upsert_desacople_history s barra estado detected_at tramo comentario fuente).2.rows =
        s.rows ++ [⟨s.nextId, barra, estado, detected_at, tramo, comentario, fuente⟩]) := by
  refine ⟨?_, ?_, ?_⟩
  · intro hb
    cases sess with
    | error e => rfl
    | ok st =>
        have hvar : ∀ x, (desacopleVariants b).contains x =
            (desacopleVariants "CHARRUA__220").contains x := by
          fin_cases hb
          · exact contains_eq_of_mem_iff (by decide) (by decide)
          · exact contains_eq_of_mem_iff (by decide) (by decide)
          · exact contains_eq_of_mem_iff (by decide) (by decide)
          · exact contains_eq_of_mem_iff (by decide) (by decide)
        show (match maxByDetectedAt (st.rows.filter
            (fun row => (desacopleVariants b).contains row.barra_transmision)) with
          | none => none
          | some ultimo => some ⟨ultimo.estado, ultimo.detected_at, ultimo.tramo,
              ultimo.comentario, ultimo.fuente⟩) =
          get_latest_desacople_event (.ok st) "CHARRUA__220"
        have hfe : List.filter
            (fun row : DesacopleRow =>
              (desacopleVariants b).contains row.barra_transmision) st.rows =
            List.filter (fun row =>
              (desacopleVariants "CHARRUA__220").contains row.barra_transmision) st.rows :=
          List.filter_congr (fun x _ => hvar x.barra_transmision)
        rw [hfe]
        rfl
  · intro hb
    cases sess with
    | error e => rfl
    | ok st =>
        have hvar : ∀ x, (desacopleVariants b).contains x =
            (desacopleVariants "QUILLOTA__220").contains x := by
          fin_cases hb
          · exact contains_eq_of_mem_iff (by decide) (by decide)
          · exact contains_eq_of_mem_iff (by decide) (by decide)
          · exact contains_eq_of_mem_iff (by decide) (by decide)
          · exact contains_eq_of_mem_iff (by decide) (by decide)
        show (match maxByDetectedAt (st.rows.filter
            (fun row => (desacopleVariants b).contains row.barra_transmision)) with
          | none => none
          | some ultimo => some ⟨ultimo.estado, ultimo.detected_at, ultimo.tramo,
              ultimo.comentario, ultimo.fuente⟩) =
          get_latest_desacople_event (.ok st) "QUILLOTA__220"
        have hfe : List.filter
            (fun row : DesacopleRow =>
              (desacopleVariants b).contains row.barra_transmision) st.rows =
            List.filter (fun row =>
              (desacopleVariants "QUILLOTA__220").contains row.barra_transmision) st.rows :=
          List.filter_congr (fun x _ => hvar x.barra_transmision)
        rw [hfe]
        rfl
  · intro hmiss
    have hfilter : s.rows.filter
        (fun row => decide (row.barra_transmision = barra)) = [] := by
      rw [List.filter_eq_nil_iff]
      intro row hrow
      simpa using hmiss row hrow
    unfold upsert_desacople_history
    rw [hfilter]
    rfl

theorem desacople_normalization_amended_witness :
    get_latest_desacople_event
      (.ok (⟨[⟨1, "CHARRUA_220", "desacoplado", 100, none, none, none⟩], 2⟩ : DesacopleStore))
      "CHARRUA" =
    get_latest_desacople_event
      (.ok (⟨[⟨1, "CHARRUA_220", "desacoplado", 100, none, none, none⟩], 2⟩ : DesacopleStore))
      "CHARRUA__220" ∧
    (upsert_desacople_history
      (⟨[⟨1, "CHARRUA_220", "desacoplado", 100, none, none, none⟩], 2⟩ : DesacopleStore)
      "CHARRUA" "acoplado" 150 none none none).2.rows =
      [⟨1, "CHARRUA_220", "desacoplado", 100, none, none, none⟩] ++
        [⟨2, "CHARRUA", "acoplado", 150, none, none, none⟩] := by
  constructor
  · exact (desacople_normalization_amended
      (.ok ⟨[⟨1, "CHARRUA_220", "desacoplado", 100, none, none, none⟩], 2⟩)
      ⟨[], 1⟩ "CHARRUA" "" "" 0 none none none).1 (by simp)
  · exact (desacople_normalization_amended (.error "")
      ⟨[⟨1, "CHARRUA_220", "desacoplado", 100, none, none, none⟩], 2⟩
      "" "CHARRUA" "acoplado" 150 none none none).2.2 (by decide)

end HBS

namespace HBS

/-- C5: starting from a store with no rows for the bus's variant family and a
sound autoincrement counter, two upserts for the same (uppercase) bus with
`t1 < t2` leave a single row for that bus, updated in place to the second
event, which `get_latest_desacople_event` returns; a third upsert with
`t3 ≤ t2` is rejected: it returns the stored second event and changes
nothing. -/
theorem upsert_desacople_monotonic
    (s : DesacopleStore) (barra e1 e2 e3 : String) (t1 t2 t3 : Int)
    (tr1 c1 f1 tr2 c2 f2 tr3 c3 f3 : Option String)
    (hids : ∀ t ∈ s.rows, t.id < s.nextId)
    (hfam : ∀ row ∈ s.rows, ¬ row.barra_transmision ∈ desacopleVariants barra)
    (hbarra : upperStr barra = barra)
    (h12 : t1 < t2) (h32 : t3 ≤ t2) :
    ∀ r1 s1 r2 s2 r3 s3,
      upsert_desacople_history s barra e1 t1 tr1 c1 f1 = (r1, s1) →
      upsert_desacople_history s1 barra e2 t2 tr2 c2 f2 = (r2, s2) →
      upsert_desacople_history s2 barra e3 t3 tr3 c3 f3 = (r3, s3) →
      s2.rows = s.rows ++ [⟨s.nextId, barra, e2, t2, tr2, c2, f2⟩] ∧
      s2.rows.length = s1.rows.length ∧
      get_latest_desacople_event (.ok s2) barra = some ⟨e2, t2, tr2, c2, f2⟩ ∧
      r3 = r2 ∧ s3 = s2 ∧
      get_latest_desacople_event (.ok s3) barra = some ⟨e2, t2, tr2, c2, f2⟩ := by
  intro r1 s1 r2 s2 r3 s3 h1 h2 h3
  have hbarra_mem : barra ∈ desacopleVariants barra := by
    unfold desacopleVariants
    rw [hbarra]
    exact List.mem_cons_self _ _
  have hA : s.rows.filter (fun row => decide (row.barra_transmision = barra)) = [] := by
    rw [List.filter_eq_nil_iff]
    intro row hrow
    simp only [decide_eq_true_eq]
    intro heq
    exact hfam row hrow (heq ▸ hbarra_mem)
  have hp1 : upsert_desacople_history s barra e1 t1 tr1 c1 f1 =
      (⟨s.nextId, barra, e1, t1, tr1, c1, f1⟩,
        ⟨s.rows ++ [⟨s.nextId, barra, e1, t1, tr1, c1, f1⟩], s.nextId + 1⟩) := by
    unfold upsert_desacople_history
    rw [hA]
    rfl
  rw [hp1] at h1
  have hr1 : r1 = ⟨s.nextId, barra, e1, t1, tr1, c1, f1⟩ := (Prod.mk.injEq _ _ _ _ ▸ h1).1.symm
  have hs1 : s1 = ⟨s.rows ++ [⟨s.nextId, barra, e1, t1, tr1, c1, f1⟩], s.nextId + 1⟩ :=
    (Prod.mk.injEq _ _ _ _ ▸ h1).2.symm
  have hfilter1 : (s.rows ++ [(⟨s.nextId, barra, e1, t1, tr1, c1, f1⟩ : DesacopleRow)]).filter
      (fun row => decide (row.barra_transmision = barra)) =
      [⟨s.nextId, barra, e1, t1, tr1, c1, f1⟩] := by
    rw [List.filter_append, hA, List.nil_append]
    simp
  have hmap : (s.rows ++ [(⟨s.nextId, barra, e1, t1, tr1, c1, f1⟩ : DesacopleRow)]).map
      (fun row => if row.id = s.nextId then
        (⟨s.nextId, barra, e2, t2, tr2, c2, f2⟩ : DesacopleRow) else row) =
      s.rows ++ [⟨s.nextId, barra, e2, t2, tr2, c2, f2⟩] := by
    rw [List.map_append]
    congr 1
    · calc s.rows.map (fun row => if row.id = s.nextId then
            (⟨s.nextId, barra, e2, t2, tr2, c2, f2⟩ : DesacopleRow) else row)
          = s.rows.map id :=
            List.map_congr_left (fun x hx => if_neg (Nat.ne_of_lt (hids x hx)))
        _ = s.rows := List.map_id s.rows
    · simp
  have hp2 : upsert_desacople_history
      (⟨s.rows ++ [⟨s.nextId, barra, e1, t1, tr1, c1, f1⟩], s.nextId + 1⟩ : DesacopleStore)
      barra e2 t2 tr2 c2 f2 =
      (⟨s.nextId, barra, e2, t2, tr2, c2, f2⟩,
        ⟨s.rows ++ [⟨s.nextId, barra, e2, t2, tr2, c2, f2⟩], s.nextId + 1⟩) := by
    unfold upsert_desacople_history
    rw [hfilter1]
    show (if t2 ≤ t1 then _ else _) = _
    rw [if_neg (not_le.2 h12)]
    simp only [hmap]
  rw [hs1, hp2] at h2
  have hr2 : r2 = ⟨s.nextId, barra, e2, t2, tr2, c2, f2⟩ := (Prod.mk.injEq _ _ _ _ ▸ h2).1.symm
  have hs2 : s2 = ⟨s.rows ++ [⟨s.nextId, barra, e2, t2, tr2, c2, f2⟩], s.nextId + 1⟩ :=
    (Prod.mk.injEq _ _ _ _ ▸ h2).2.symm
  have hfilter2 : (s.rows ++ [(⟨s.nextId, barra, e2, t2, tr2, c2, f2⟩ : DesacopleRow)]).filter
      (fun row => decide (row.barra_transmision = barra)) =
      [⟨s.nextId, barra, e2, t2, tr2, c2, f2⟩] := by
    rw [List.filter_append, hA, List.nil_append]
    simp
  have hp3 : upsert_desacople_history
      (⟨s.rows ++ [⟨s.nextId, barra, e2, t2, tr2, c2, f2⟩], s.nextId + 1⟩ : DesacopleStore)
      barra e3 t3 tr3 c3 f3 =
      (⟨s.nextId, barra, e2, t2, tr2, c2, f2⟩,
        ⟨s.rows ++ [⟨s.nextId, barra, e2, t2, tr2, c2, f2⟩], s.nextId + 1⟩) := by
    unfold upsert_desacople_history
    rw [hfilter2]
    show (if t3 ≤ t2 then _ else _) = _
    rw [if_pos h32]
  rw [hs2, hp3] at h3
  have hr3 : r3 = ⟨s.nextId, barra, e2, t2, tr2, c2, f2⟩ := (Prod.mk.injEq _ _ _ _ ▸ h3).1.symm
  have hs3 : s3 = ⟨s.rows ++ [⟨s.nextId, barra, e2, t2, tr2, c2, f2⟩], s.nextId + 1⟩ :=
    (Prod.mk.injEq _ _ _ _ ▸ h3).2.symm
  have hvarfilter : (s.rows ++ [(⟨s.nextId, barra, e2, t2, tr2, c2, f2⟩ : DesacopleRow)]).filter
      (fun row => (desacopleVariants barra).contains row.barra_transmision) =
      [⟨s.nextId, barra, e2, t2, tr2, c2, f2⟩] := by
    rw [List.filter_append]
    have hz : s.rows.filter
        (fun row => (desacopleVariants barra).contains row.barra_transmision) = [] := by
      rw [List.filter_eq_nil_iff]
      intro row hrow
      simp only [List.elem_eq_mem, decide_eq_true_eq]
      exact hfam row hrow
    have ho : List.filter
        (fun row => (desacopleVariants barra).contains row.barra_transmision)
        [(⟨s.nextId, barra, e2, t2, tr2, c2, f2⟩ : DesacopleRow)] =
        [⟨s.nextId, barra, e2, t2, tr2, c2, f2⟩] := by
      simp only [List.filter_cons, List.filter_nil, List.elem_eq_mem]
      rw [decide_eq_true hbarra_mem]
      rfl
    rw [hz, ho, List.nil_append]
  have hget : get_latest_desacople_event
      (.ok (⟨s.rows ++ [⟨s.nextId, barra, e2, t2, tr2, c2, f2⟩], s.nextId + 1⟩ :
        DesacopleStore)) barra = some ⟨e2, t2, tr2, c2, f2⟩ := by
    simp only [get_latest_desacople_event]
    rw [hvarfilter]
    rfl
  subst hs2
  subst hs3
  refine ⟨rfl, ?_, hget, ?_, rfl, hget⟩
  · rw [hs1]
    simp
  · rw [hr3, hr2]

end HBS

namespace HBS

theorem upsert_desacople_monotonic_witness :
    (⟨[⟨1, "CHARRUA__220", "acoplado", 20, none, none, none⟩], 2⟩ : DesacopleStore).rows =
      ([] : List DesacopleRow) ++ [⟨1, "CHARRUA__220", "acoplado", 20, none, none, none⟩] ∧
    (⟨[⟨1, "CHARRUA__220", "acoplado", 20, none, none, none⟩], 2⟩ : DesacopleStore).rows.length =
      (⟨[⟨1, "CHARRUA__220", "desacoplado", 10, none, none, none⟩], 2⟩ :
        DesacopleStore).rows.length ∧
    get_latest_desacople_event
      (.ok (⟨[⟨1, "CHARRUA__220", "acoplado", 20, none, none, none⟩], 2⟩ : DesacopleStore))
      "CHARRUA__220" = some ⟨"acoplado", 20, none, none, none⟩ ∧
    (⟨1, "CHARRUA__220", "acoplado", 20, none, none, none⟩ : DesacopleRow) =
      ⟨1, "CHARRUA__220", "acoplado", 20, none, none, none⟩ ∧
    (⟨[⟨1, "CHARRUA__220", "acoplado", 20, none, none, none⟩], 2⟩ : DesacopleStore) =
      ⟨[⟨1, "CHARRUA__220", "acoplado", 20, none, none, none⟩], 2⟩ ∧
    get_latest_desacople_event
      (.ok (⟨[⟨1, "CHARRUA__220", "acoplado", 20, none, none, none⟩], 2⟩ : DesacopleStore))
      "CHARRUA__220" = some ⟨"acoplado", 20, none, none, none⟩ :=
  upsert_desacople_monotonic ⟨[], 1⟩ "CHARRUA__220" "desacoplado" "acoplado" "desacoplado"
    10 20 15 none none none none none none none none none
    (by simp) (by simp) (by decide) (by decide) (by decide)
    ⟨1, "CHARRUA__220", "desacoplado", 10, none, none, none⟩
    ⟨[⟨1, "CHARRUA__220", "desacoplado", 10, none, none, none⟩], 2⟩
    ⟨1, "CHARRUA__220", "acoplado", 20, none, none, none⟩
    ⟨[⟨1, "CHARRUA__220", "acoplado", 20, none, none, none⟩], 2⟩
    ⟨1, "CHARRUA__220", "acoplado", 20, none, none, none⟩
    ⟨[⟨1, "CHARRUA__220", "acoplado", 20, none, none, none⟩], 2⟩
    rfl rfl rfl

end HBS

namespace HBS

/-! ### Structure of the synthetic series -/

theorem mem_offsetsDesc : ∀ n o, o ∈ offsetsDesc n ↔ 1 ≤ o ∧ o ≤ n := by
  intro n
  induction n with
  | zero => intro o; simp [offsetsDesc]; omega
  | succ k ih =>
      intro o
      simp only [offsetsDesc, List.mem_cons, ih]
      omega

theorem pairwise_gt_offsetsDesc : ∀ n, (offsetsDesc n).Pairwise (· > ·) := by
  intro n
  induction n with
  | zero => exact List.Pairwise.nil
  | succ k ih =>
      rw [offsetsDesc, List.pairwise_cons]
      exact ⟨fun o ho => by rw [mem_offsetsDesc] at ho; omega, ih⟩

theorem length_offsetsDesc : ∀ n, (offsetsDesc n).length = n := by
  intro n
  induction n with
  | zero => rfl
  | succ k ih => simp [offsetsDesc, ih]

theorem twoPerOffset_mem {β : Type} (f : Nat → Nat → β) :
    ∀ l (row : β), row ∈ twoPerOffset f l →
      ∃ off ∈ l, row = f off 0 ∨ row = f off 1 := by
  intro l
  induction l with
  | nil => intro row h; cases h
  | cons off rest ih =>
      intro row h
      rcases List.mem_cons.1 h with rfl | h
      · exact ⟨off, List.mem_cons_self _ _, Or.inl rfl⟩
      · rcases List.mem_cons.1 h with rfl | h
        · exact ⟨off, List.mem_cons_self _ _, Or.inr rfl⟩
        · rcases ih row h with ⟨o, ho, hrow⟩
          exact ⟨o, List.mem_cons_of_mem _ ho, hrow⟩

theorem twoPerOffset_pairwise {β : Type} (f : Nat → Nat → β) (R : β → β → Prop)
    (hsame : ∀ off, R (f off 0) (f off 1))
    (hacross : ∀ off off', off > off' → ∀ b b', b ≤ 1 → b' ≤ 1 → R (f off b) (f off' b')) :
    ∀ l, l.Pairwise (· > ·) → (twoPerOffset f l).Pairwise R := by
  intro l
  induction l with
  | nil => intro _; exact List.Pairwise.nil
  | cons off rest ih =>
      intro hl
      rw [List.pairwise_cons] at hl
      obtain ⟨hoff, hrest⟩ := hl
      have hx : ∀ x ∈ twoPerOffset f rest, ∀ b ≤ 1, R (f off b) x := by
        intro x hx b hb
        rcases twoPerOffset_mem f rest x hx with ⟨o, ho, hx0 | hx1⟩
        · exact hx0 ▸ hacross off o (hoff o ho) b 0 hb (by omega)
        · exact hx1 ▸ hacross off o (hoff o ho) b 1 hb (by omega)
      show (f off 0 :: f off 1 :: twoPerOffset f rest).Pairwise R
      rw [List.pairwise_cons, List.pairwise_cons]
      refine ⟨?_, ?_, ih hrest⟩
      · intro x hxx
        rcases List.mem_cons.1 hxx with rfl | hxx
        · exact hsame off
        · exact hx x hxx 0 (by omega)
      · intro x hxx
        exact hx x hxx 1 (by omega)

theorem twoPerOffset_count {β : Type} (f : Nat → Nat → β) (p : β → Bool)
    (h0 : ∀ off, p (f off 0) = true) (h1 : ∀ off, p (f off 1) = false) :
    ∀ l, ((twoPerOffset f l).filter p).length = l.length := by
  intro l
  induction l with
  | nil => rfl
  | cons off rest ih =>
      show ((f off 0 :: f off 1 :: twoPerOffset f rest).filter p).length = rest.length + 1
      rw [List.filter_cons, List.filter_cons, h0 off, h1 off]
      simp [ih]

theorem twoPerOffset_count' {β : Type} (f : Nat → Nat → β) (p : β → Bool)
    (h0 : ∀ off, p (f off 0) = false) (h1 : ∀ off, p (f off 1) = true) :
    ∀ l, ((twoPerOffset f l).filter p).length = l.length := by
  intro l
  induction l with
  | nil => rfl
  | cons off rest ih =>
      show ((f off 0 :: f off 1 :: twoPerOffset f rest).filter p).length = rest.length + 1
      rw [List.filter_cons, List.filter_cons, h0 off, h1 off]
      simp [ih]

theorem twoPerOffset_length {β : Type} (f : Nat → Nat → β) :
    ∀ l, (twoPerOffset f l).length = 2 * l.length := by
  intro l
  induction l with
  | nil => rfl
  | cons off rest ih =>
      show (f off 0 :: f off 1 :: twoPerOffset f rest).length = 2 * (rest.length + 1)
      simp [ih]
      omega

/-- `round2` moves a value by at most `1/200`. -/
theorem round2_bounds (q a b : Rat) (h1 : a ≤ q) (h2 : q ≤ b) :
    a - 1/200 ≤ round2 q ∧ round2 q ≤ b + 1/200 := by
  have h := abs_sub_round (q * 100)
  rw [abs_sub_le_iff] at h
  obtain ⟨ha, hb⟩ := h
  unfold round2
  constructor <;> linarith

end HBS

namespace HBS

theorem ponderadoSample_unix (ut : Int) (delta : Nat) (r : Nat → Rat) (off b : Nat) :
    (ponderadoSample ut delta r off b).unix_time = ut - (off : Int) * 3600 := rfl

theorem tiempoRealSample_unix (ut : Int) (r : Nat → Rat) (off b : Nat) :
    (tiempoRealSample ut r off b).unix_time = ut - (off : Int) * 3600 := rfl

theorem ponderadoSample_cmg_bounds (ut : Int) (delta : Nat) (r : Nat → Rat) (off b : Nat)
    (hdelta : 1 ≤ delta) (hoff2 : off ≤ delta) (hr : ∀ i, 0 ≤ r i ∧ r i < 1) :
    0 ≤ (ponderadoSample ut delta r off b).cmg_ponderado ∧
      (ponderadoSample ut delta r off b).cmg_ponderado ≤ 1000 := by
  have hdpos : (0:Rat) < (delta:Rat) := by exact_mod_cast Nat.lt_of_lt_of_le Nat.zero_lt_one hdelta
  have hdiv0 : (0:Rat) ≤ (off:Rat) / (delta:Rat) := by positivity
  have hdiv1 : (off:Rat) / (delta:Rat) ≤ 1 := by
    rw [div_le_one hdpos]
    exact_mod_cast hoff2
  obtain ⟨hq0, hq1⟩ := hr (2 * off + b)
  set q : Rat := r (2 * off + b) with hq
  set v : Rat := (if b = 0 then (45.75:Rat) else 48.32) +
    ((off:Rat) / (delta:Rat) * 10 - 5) + (q - 1/2) * 3 with hv
  have hc : (ponderadoSample ut delta r off b).cmg_ponderado = round2 v := by
    rw [hv, hq]
    rfl
  have hvl : (38:Rat) ≤ v := by
    rw [hv]
    by_cases hb : b = 0 <;> simp only [hb, if_true, if_false] <;> norm_num <;> linarith
  have hvu : v ≤ (56:Rat) := by
    rw [hv]
    by_cases hb : b = 0 <;> simp only [hb, if_true, if_false] <;> norm_num <;> linarith
  obtain ⟨hb1, hb2⟩ := round2_bounds v 38 56 hvl hvu
  rw [hc]
  constructor <;> linarith

theorem tiempoRealSample_cmg_bounds (ut : Int) (r : Nat → Rat) (off b : Nat)
    (hr : ∀ i, 0 ≤ r i ∧ r i < 1) :
    0 ≤ (tiempoRealSample ut r off b).cmg ∧ (tiempoRealSample ut r off b).cmg ≤ 1000 := by
  obtain ⟨hq0, hq1⟩ := hr (2 * (2 * off + b))
  set q : Rat := r (2 * (2 * off + b)) with hq
  set v : Rat := (if b = 0 then (45.75:Rat) else 48.32) + (q - 1/2) * 5 with hv
  have hc : (tiempoRealSample ut r off b).cmg = round2 v := by
    rw [hv, hq]
    rfl
  have hvl : (43:Rat) ≤ v := by
    rw [hv]
    by_cases hb : b = 0 <;> simp only [hb, if_true, if_false] <;> norm_num <;> linarith
  have hvu : v ≤ (51:Rat) := by
    rw [hv]
    by_cases hb : b = 0 <;> simp only [hb, if_true, if_false] <;> norm_num <;> linarith
  obtain ⟨hb1, hb2⟩ := round2_bounds v 43 51 hvl hvu
  rw [hc]
  constructor <;> linarith

theorem ponderadoSample_barra (ut : Int) (delta : Nat) (r : Nat → Rat) (off b : Nat) :
    normalize_barra (ponderadoSample ut delta r off b).barra_transmision =
      (ponderadoSample ut delta r off b).barra_transmision := by
  by_cases hb : b = 0 <;> simp only [ponderadoSample, hb, if_true, if_false] <;> decide

theorem tiempoRealSample_barra (ut : Int) (r : Nat → Rat) (off b : Nat) :
    normalize_barra (tiempoRealSample ut r off b).barra_transmision =
      (tiempoRealSample ut r off b).barra_transmision := by
  by_cases hb : b = 0 <;> simp only [tiempoRealSample, hb, if_true, if_false] <;> decide

end HBS

namespace HBS

/-- The two rows generated for one hour offset belong to the two distinct
canonical buses. -/
theorem ponderadoSample_barra0 (ut : Int) (delta : Nat) (r : Nat → Rat) (off : Nat) :
    (ponderadoSample ut delta r off 0).barra_transmision = "CHARRUA__220" := rfl

theorem ponderadoSample_barra1 (ut : Int) (delta : Nat) (r : Nat → Rat) (off : Nat) :
    (ponderadoSample ut delta r off 1).barra_transmision = "QUILLOTA__220" := rfl

theorem tiempoRealSample_barra0 (ut : Int) (r : Nat → Rat) (off : Nat) :
    (tiempoRealSample ut r off 0).barra_transmision = "CHARRUA__220" := rfl

theorem tiempoRealSample_barra1 (ut : Int) (r : Nat → Rat) (off : Nat) :
    (tiempoRealSample ut r off 1).barra_transmision = "QUILLOTA__220" := rfl

/-- C9: every sample produced by the two fallback synthesizers has its cost
value inside the valid CMg range [0, 1000] and a canonical bus identifier
(fixed by `normalize_barra`); per bus the epochs are strictly increasing, with
exactly one sample per whole hour of the window — `delta_hours` samples per
bus for the weighted generator and 24 per bus for the real-time generator. -/
theorem fallback_synthesizers_valid (ut : Int) (delta : Nat) (r r' : Nat → Rat)
    (hr : ∀ i, 0 ≤ r i ∧ r i < 1) (hr' : ∀ i, 0 ≤ r' i ∧ r' i < 1)
    (hdelta : 1 ≤ delta) :
    (∀ row ∈ generate_fallback_cmg_ponderado ut delta r,
      (0 ≤ row.cmg_ponderado ∧ row.cmg_ponderado ≤ 1000) ∧
      normalize_barra row.barra_transmision = row.barra_transmision ∧
      ∃ off : Nat, 1 ≤ off ∧ off ≤ delta ∧ row.unix_time = ut - (off : Int) * 3600) ∧
    (generate_fallback_cmg_ponderado ut delta r).Pairwise
      (fun a b => a.barra_transmision = b.barra_transmision → a.unix_time < b.unix_time) ∧
    ((generate_fallback_cmg_ponderado ut delta r).filter
      (fun row => row.barra_transmision = "CHARRUA__220")).length = delta ∧
    ((generate_fallback_cmg_ponderado ut delta r).filter
      (fun row => row.barra_transmision = "QUILLOTA__220")).length = delta ∧
    (∀ row ∈ generate_fallback_cmg_tiempo_real ut r',
      (0 ≤ row.cmg ∧ row.cmg ≤ 1000) ∧
      normalize_barra row.barra_transmision = row.barra_transmision ∧
      ∃ off : Nat, 1 ≤ off ∧ off ≤ 24 ∧ row.unix_time = ut - (off : Int) * 3600) ∧
    (generate_fallback_cmg_tiempo_real ut r').Pairwise
      (fun a b => a.barra_transmision = b.barra_transmision → a.unix_time < b.unix_time) ∧
    ((generate_fallback_cmg_tiempo_real ut r').filter
      (fun row => row.barra_transmision = "CHARRUA__220")).length = 24 ∧
    ((generate_fallback_cmg_tiempo_real ut r').filter
      (fun row => row.barra_transmision = "QUILLOTA__220")).length = 24 := by
  unfold generate_fallback_cmg_ponderado generate_fallback_cmg_tiempo_real
  refine ⟨?_, ?_, ?_, ?_, ?_, ?_, ?_, ?_⟩
  · intro row hrow
    rcases twoPerOffset_mem _ _ row hrow with ⟨off, hoff, hcase⟩
    rw [mem_offsetsDesc] at hoff
    rcases hcase with rfl | rfl
    · exact ⟨ponderadoSample_cmg_bounds ut delta r off 0 hdelta hoff.2 hr,
        ponderadoSample_barra ut delta r off 0,
        off, hoff.1, hoff.2, ponderadoSample_unix ut delta r off 0⟩
    · exact ⟨ponderadoSample_cmg_bounds ut delta r off 1 hdelta hoff.2 hr,
        ponderadoSample_barra ut delta r off 1,
        off, hoff.1, hoff.2, ponderadoSample_unix ut delta r off 1⟩
  · exact twoPerOffset_pairwise (ponderadoSample ut delta r) _
      (fun off h => absurd (ponderadoSample_barra0 ut delta r off ▸
        ponderadoSample_barra1 ut delta r off ▸ h) (by decide))
      (fun off off' hgt b b' _ _ _ => by
        rw [ponderadoSample_unix, ponderadoSample_unix]
        omega)
      (offsetsDesc delta) (pairwise_gt_offsetsDesc delta)
  · rw [twoPerOffset_count (ponderadoSample ut delta r) _
      (fun off => decide_eq_true (ponderadoSample_barra0 ut delta r off))
      (fun off => decide_eq_false (fun h =>
        absurd (ponderadoSample_barra1 ut delta r off ▸ h) (by decide)))
      (offsetsDesc delta)]
    exact length_offsetsDesc delta
  · rw [twoPerOffset_count' (ponderadoSample ut delta r) _
      (fun off => decide_eq_false (fun h =>
        absurd (ponderadoSample_barra0 ut delta r off ▸ h) (by decide)))
      (fun off => decide_eq_true (ponderadoSample_barra1 ut delta r off))
      (offsetsDesc delta)]
    exact length_offsetsDesc delta
  · intro row hrow
    rcases twoPerOffset_mem _ _ row hrow with ⟨off, hoff, hcase⟩
    rw [mem_offsetsDesc] at hoff
    rcases hcase with rfl | rfl
    · exact ⟨tiempoRealSample_cmg_bounds ut r' off 0 hr',
        tiempoRealSample_barra ut r' off 0,
        off, hoff.1, hoff.2, tiempoRealSample_unix ut r' off 0⟩
    · exact ⟨tiempoRealSample_cmg_bounds ut r' off 1 hr',
        tiempoRealSample_barra ut r' off 1,
        off, hoff.1, hoff.2, tiempoRealSample_unix ut r' off 1⟩
  · exact twoPerOffset_pairwise (tiempoRealSample ut r') _
      (fun off h => absurd (tiempoRealSample_barra0 ut r' off ▸
        tiempoRealSample_barra1 ut r' off ▸ h) (by decide))
      (fun off off' hgt b b' _ _ _ => by
        rw [tiempoRealSample_unix, tiempoRealSample_unix]
        omega)
      (offsetsDesc 24) (pairwise_gt_offsetsDesc 24)
  · rw [twoPerOffset_count (tiempoRealSample ut r') _
      (fun off => decide_eq_true (tiempoRealSample_barra0 ut r' off))
      (fun off => decide_eq_false (fun h =>
        absurd (tiempoRealSample_barra1 ut r' off ▸ h) (by decide)))
      (offsetsDesc 24)]
    exact length_offsetsDesc 24
  · rw [twoPerOffset_count' (tiempoRealSample ut r') _
      (fun off => decide_eq_false (fun h =>
        absurd (tiempoRealSample_barra0 ut r' off ▸ h) (by decide)))
      (fun off => decide_eq_true (tiempoRealSample_barra1 ut r' off))
      (offsetsDesc 24)]
    exact length_offsetsDesc 24

theorem fallback_synthesizers_valid_witness :
    (∀ row ∈ generate_fallback_cmg_ponderado 1000000 2 (fun _ => 0),
      (0 ≤ row.cmg_ponderado ∧ row.cmg_ponderado ≤ 1000) ∧
      normalize_barra row.barra_transmision = row.barra_transmision ∧
      ∃ off : Nat, 1 ≤ off ∧ off ≤ 2 ∧ row.unix_time = 1000000 - (off : Int) * 3600) ∧
    (generate_fallback_cmg_ponderado 1000000 2 (fun _ => 0)).Pairwise
      (fun a b => a.barra_transmision = b.barra_transmision → a.unix_time < b.unix_time) ∧
    ((generate_fallback_cmg_ponderado 1000000 2 (fun _ => 0)).filter
      (fun row => row.barra_transmision = "CHARRUA__220")).length = 2 ∧
    ((generate_fallback_cmg_ponderado 1000000 2 (fun _ => 0)).filter
      (fun row => row.barra_transmision = "QUILLOTA__220")).length = 2 ∧
    (∀ row ∈ generate_fallback_cmg_tiempo_real 1000000 (fun _ => 0),
      (0 ≤ row.cmg ∧ row.cmg ≤ 1000) ∧
      normalize_barra row.barra_transmision = row.barra_transmision ∧
      ∃ off : Nat, 1 ≤ off ∧ off ≤ 24 ∧ row.unix_time = 1000000 - (off : Int) * 3600) ∧
    (generate_fallback_cmg_tiempo_real 1000000 (fun _ => 0)).Pairwise
      (fun a b => a.barra_transmision = b.barra_transmision → a.unix_time < b.unix_time) ∧
    ((generate_fallback_cmg_tiempo_real 1000000 (fun _ => 0)).filter
      (fun row => row.barra_transmision = "CHARRUA__220")).length = 24 ∧
    ((generate_fallback_cmg_tiempo_real 1000000 (fun _ => 0)).filter
      (fun row => row.barra_transmision = "QUILLOTA__220")).length = 24 :=
  fallback_synthesizers_valid 1000000 2 (fun _ => 0) (fun _ => 0)
    (fun _ => ⟨le_refl 0, by norm_num⟩) (fun _ => ⟨le_refl 0, by norm_num⟩) (by decide)

end HBS

namespace HBS

theorem fallback_ponderado_sorted (ut : Int) (delta : Nat) (r : Nat → Rat) :
    (generate_fallback_cmg_ponderado ut delta r).Pairwise
      (fun a b => a.unix_time ≤ b.unix_time) := by
  unfold generate_fallback_cmg_ponderado
  exact twoPerOffset_pairwise (ponderadoSample ut delta r) _
    (fun off => by rw [ponderadoSample_unix, ponderadoSample_unix])
    (fun off off' hgt b b' _ _ => by
      rw [ponderadoSample_unix, ponderadoSample_unix]
      omega)
    (offsetsDesc delta) (pairwise_gt_offsetsDesc delta)

theorem fallback_ponderado_nodup (ut : Int) (delta : Nat) (r : Nat → Rat) :
    (generate_fallback_cmg_ponderado ut delta r).Pairwise
      (fun a b => a.barra_transmision = b.barra_transmision → a.unix_time ≠ b.unix_time) := by
  unfold generate_fallback_cmg_ponderado
  exact twoPerOffset_pairwise (ponderadoSample ut delta r) _
    (fun off h => absurd (ponderadoSample_barra0 ut delta r off ▸
      ponderadoSample_barra1 ut delta r off ▸ h) (by decide))
    (fun off off' hgt b b' _ _ _ => by
      rw [ponderadoSample_unix, ponderadoSample_unix]
      omega)
    (offsetsDesc delta) (pairwise_gt_offsetsDesc delta)

theorem fallback_ponderado_ne_nil (ut : Int) (delta : Nat) (r : Nat → Rat)
    (hdelta : 1 ≤ delta) : generate_fallback_cmg_ponderado ut delta r ≠ [] := by
  have hlen : (generate_fallback_cmg_ponderado ut delta r).length = 2 * delta := by
    unfold generate_fallback_cmg_ponderado
    rw [twoPerOffset_length, length_offsetsDesc]
  intro h
  rw [h] at hlen
  simp at hlen
  omega

/-- C4: for a window of at least one hour over a store whose rows are unique
per (bus, epoch), the windowed query returns a non-empty sequence, ascending
by epoch with no duplicate epochs per bus; when the session is live every
returned real sample lies in the inclusive window, and when the query raises
or zero rows match the window, the result is exactly the fallback
synthesizer's output. -/
theorem query_cmg_ponderado_window (sess : Except String PonderadoStore)
    (ut : Int) (delta : Nat) (r : Nat → Rat) (hdelta : 1 ≤ delta)
    (huniq : ∀ st, sess = .ok st → st.rows.Pairwise
      (fun a b => a.barra_transmision = b.barra_transmision → a.unix_time ≠ b.unix_time)) :
    query_cmg_ponderado_by_time sess ut delta r ≠ [] ∧
    (query_cmg_ponderado_by_time sess ut delta r).Pairwise
      (fun a b => a.unix_time ≤ b.unix_time) ∧
    (query_cmg_ponderado_by_time sess ut delta r).Pairwise
      (fun a b => a.barra_transmision = b.barra_transmision → a.unix_time ≠ b.unix_time) ∧
    (∀ st, sess = .ok st →
      (∃ row₀ ∈ st.rows, ut - (delta : Int) * 3600 ≤ row₀.unix_time ∧ row₀.unix_time ≤ ut) →
      ∀ row ∈ query_cmg_ponderado_by_time sess ut delta r,
        ut - (delta : Int) * 3600 ≤ row.unix_time ∧ row.unix_time ≤ ut) ∧
    (∀ e, sess = .error e → query_cmg_ponderado_by_time sess ut delta r =
      generate_fallback_cmg_ponderado ut delta r) ∧
    (∀ st, sess = .ok st →
      (∀ row₀ ∈ st.rows, ¬(ut - (delta : Int) * 3600 ≤ row₀.unix_time ∧ row₀.unix_time ≤ ut)) →
      query_cmg_ponderado_by_time sess ut delta r =
        generate_fallback_cmg_ponderado ut delta r) := by
  haveI hTot : IsTotal PonderadoRow (fun a b => a.unix_time ≤ b.unix_time) :=
    ⟨fun a b => le_total _ _⟩
  haveI hTrans : IsTrans PonderadoRow (fun a b => a.unix_time ≤ b.unix_time) :=
    ⟨fun a b c hab hbc => le_trans hab hbc⟩
  have hRsymm : ∀ {x y : PonderadoRow},
      (x.barra_transmision = y.barra_transmision → x.unix_time ≠ y.unix_time) →
      (y.barra_transmision = x.barra_transmision → y.unix_time ≠ x.unix_time) :=
    fun hab h => (hab h.symm).symm
  cases sess with
  | error e =>
      refine ⟨?_, ?_, ?_, ?_, ?_, ?_⟩
      · exact fallback_ponderado_ne_nil ut delta r hdelta
      · exact fallback_ponderado_sorted ut delta r
      · exact fallback_ponderado_nodup ut delta r
      · intro st hst
        cases hst
      · intro e' he
        rfl
      · intro st hst
        cases hst
  | ok st =>
      have hq : query_cmg_ponderado_by_time (.ok st) ut delta r =
          (if ((st.rows.filter (fun row =>
              decide (ut - (delta : Int) * 3600 ≤ row.unix_time ∧ row.unix_time ≤ ut))).insertionSort
              (fun a b => a.unix_time ≤ b.unix_time)).isEmpty
          then generate_fallback_cmg_ponderado ut delta r
          else (st.rows.filter (fun row =>
              decide (ut - (delta : Int) * 3600 ≤ row.unix_time ∧ row.unix_time ≤ ut))).insertionSort
              (fun a b => a.unix_time ≤ b.unix_time)) := rfl
      have hperm := List.perm_insertionSort
        (fun a b : PonderadoRow => a.unix_time ≤ b.unix_time)
        (st.rows.filter (fun row =>
          decide (ut - (delta : Int) * 3600 ≤ row.unix_time ∧ row.unix_time ≤ ut)))
      by_cases hL : ((st.rows.filter (fun row =>
          decide (ut - (delta : Int) * 3600 ≤ row.unix_time ∧ row.unix_time ≤ ut))).insertionSort
          (fun a b => a.unix_time ≤ b.unix_time)).isEmpty = true
      · have hLnil := List.isEmpty_iff.1 hL
        have h0 : (st.rows.filter (fun row =>
            decide (ut - (delta : Int) * 3600 ≤ row.unix_time ∧ row.unix_time ≤ ut))).Perm
            ([] : List PonderadoRow) := by
          rw [← hLnil]
          exact hperm.symm
        have hFnil : st.rows.filter (fun row =>
            decide (ut - (delta : Int) * 3600 ≤ row.unix_time ∧ row.unix_time ≤ ut)) = [] :=
          List.Perm.eq_nil h0
        rw [hq, if_pos hL]
        refine ⟨fallback_ponderado_ne_nil ut delta r hdelta,
          fallback_ponderado_sorted ut delta r,
          fallback_ponderado_nodup ut delta r, ?_, ?_, ?_⟩
        · intro st' hst' hex
          cases hst'
          rcases hex with ⟨row₀, hmem, hw1, hw2⟩
          have : row₀ ∈ st.rows.filter (fun row =>
              decide (ut - (delta : Int) * 3600 ≤ row.unix_time ∧ row.unix_time ≤ ut)) :=
            List.mem_filter.2 ⟨hmem, by simp [hw1, hw2]⟩
          rw [hFnil] at this
          cases this
        · intro e' he
          cases he
        · intro st' hst' hall
          rfl
      · rw [hq, if_neg hL]
        have hLne : (st.rows.filter (fun row =>
            decide (ut - (delta : Int) * 3600 ≤ row.unix_time ∧ row.unix_time ≤ ut))).insertionSort
            (fun a b => a.unix_time ≤ b.unix_time) ≠ [] := by
          intro h
          rw [h] at hL
          simp at hL
        refine ⟨hLne, List.sorted_insertionSort _ _, ?_, ?_, ?_, ?_⟩
        · have hF : (st.rows.filter (fun row =>
              decide (ut - (delta : Int) * 3600 ≤ row.unix_time ∧ row.unix_time ≤ ut))).Pairwise
              (fun a b => a.barra_transmision = b.barra_transmision →
                a.unix_time ≠ b.unix_time) :=
            (huniq st rfl).sublist (List.filter_sublist _)
          exact (List.Perm.pairwise_iff hRsymm hperm).2 hF
        · intro st' hst' hex row hrow
          cases hst'
          have hmem := hperm.mem_iff.1 hrow
          have := List.mem_filter.1 hmem
          have hcond := of_decide_eq_true this.2
          exact hcond
        · intro e' he
          cases he
        · intro st' hst' hall
          cases hst'
          exfalso
          apply hL
          have hFnil : st.rows.filter (fun row =>
              decide (ut - (delta : Int) * 3600 ≤ row.unix_time ∧ row.unix_time ≤ ut)) = [] := by
            rw [List.filter_eq_nil_iff]
            intro row hrow
            simpa using hall row hrow
          rw [hFnil]
          rfl

end HBS

namespace HBS

theorem query_cmg_ponderado_window_witness :
    query_cmg_ponderado_by_time (.ok ⟨[⟨"CHARRUA__220", 500, 45⟩]⟩) 1000 1 (fun _ => 0) ≠ [] ∧
    (query_cmg_ponderado_by_time (.ok ⟨[⟨"CHARRUA__220", 500, 45⟩]⟩) 1000 1
      (fun _ => 0)).Pairwise (fun a b => a.unix_time ≤ b.unix_time) ∧
    (query_cmg_ponderado_by_time (.ok ⟨[⟨"CHARRUA__220", 500, 45⟩]⟩) 1000 1
      (fun _ => 0)).Pairwise
      (fun a b => a.barra_transmision = b.barra_transmision → a.unix_time ≠ b.unix_time) ∧
    (∀ st, (Except.ok (⟨[⟨"CHARRUA__220", 500, 45⟩]⟩ : PonderadoStore) :
        Except String PonderadoStore) = .ok st →
      (∃ row₀ ∈ st.rows, 1000 - (1 : Int) * 3600 ≤ row₀.unix_time ∧ row₀.unix_time ≤ 1000) →
      ∀ row ∈ query_cmg_ponderado_by_time (.ok ⟨[⟨"CHARRUA__220", 500, 45⟩]⟩) 1000 1
        (fun _ => 0),
        1000 - (1 : Int) * 3600 ≤ row.unix_time ∧ row.unix_time ≤ 1000) ∧
    (∀ e, (Except.ok (⟨[⟨"CHARRUA__220", 500, 45⟩]⟩ : PonderadoStore) :
        Except String PonderadoStore) = .error e →
      query_cmg_ponderado_by_time (.ok ⟨[⟨"CHARRUA__220", 500, 45⟩]⟩) 1000 1 (fun _ => 0) =
        generate_fallback_cmg_ponderado 1000 1 (fun _ => 0)) ∧
    (∀ st, (Except.ok (⟨[⟨"CHARRUA__220", 500, 45⟩]⟩ : PonderadoStore) :
        Except String PonderadoStore) = .ok st →
      (∀ row₀ ∈ st.rows, ¬(1000 - (1 : Int) * 3600 ≤ row₀.unix_time ∧ row₀.unix_time ≤ 1000)) →
      query_cmg_ponderado_by_time (.ok ⟨[⟨"CHARRUA__220", 500, 45⟩]⟩) 1000 1 (fun _ => 0) =
        generate_fallback_cmg_ponderado 1000 1 (fun _ => 0)) :=
  query_cmg_ponderado_window (.ok ⟨[⟨"CHARRUA__220", 500, 45⟩]⟩) 1000 1 (fun _ => 0)
    (by decide)
    (fun st hst => by
      cases hst
      simp)

end HBS

namespace HBS

/-- C3: the status classification function maps (52.30, 48.00, margin 0) to
"ON", (40.00, 48.00, margin 0) to "OFF" and (47.90, 48.00, margin 0.50) to
"HOLD"; in general it is "ON" when the marginal cost is at least the computed
cost, "OFF" when the marginal cost is below the computed cost by more than
the configured margin, and "HOLD" otherwise. -/
theorem classify_status_scenarios :
    classify_status 52.30 48.00 0 = "ON" ∧
    classify_status 40.00 48.00 0 = "OFF" ∧
    classify_status 47.90 48.00 0.50 = "HOLD" ∧
    (∀ m c g : Rat, (m ≥ c → classify_status m c g = "ON") ∧
      (m < c → m < c - g → classify_status m c g = "OFF") ∧
      (m < c → ¬ m < c - g → classify_status m c g = "HOLD")) := by
  refine ⟨by norm_num [classify_status], by norm_num [classify_status],
    by norm_num [classify_status], fun m c g => ⟨fun h => ?_, fun h1 h2 => ?_, fun h1 h2 => ?_⟩⟩
  · simp [classify_status, h]
  · simp [classify_status, not_le.2 h1, h2]
  · simp [classify_status, not_le.2 h1, h2]

theorem classify_status_scenarios_witness :
    classify_status 60 48 0 = "ON" ∧ classify_status 30 48 0 = "OFF" :=
  ⟨(classify_status_scenarios.2.2.2 60 48 0).1 (by decide),
    (classify_status_scenarios.2.2.2 30 48 0).2.1 (by decide) (by rw [sub_zero]; decide)⟩

/-- C10: every exposed read operation is total over store failures — on a
session whose query raises any exception, `get_latest_status_central` returns
`None`, `get_latest_desacople_event` returns `None`,
`query_values_last_desacople_bool` returns `(None, None, None)` and
`get_status_central_history` returns the empty DataFrame; the embeddings are
total functions, so no exception propagates to the caller. -/
theorem read_paths_total_on_failure (e : String) (central barra : String)
    (limit : Nat) (centrals : Option (List String)) :
    get_latest_status_central (.error e) central = none ∧
    get_latest_desacople_event (.error e) barra = none ∧
    query_values_last_desacople_bool (.error e) barra = (none, none, none) ∧
    get_status_central_history (.error e) limit centrals = [] :=
  ⟨rfl, rfl, rfl, rfl⟩

end HBS
